/-
  Verification of the Nest configuration resolver and structural type matcher.

  Shallow embedding of:
    - `is_annotation_matched` and `merge_dict` from nest/utils.py
    - `parse_config`, `run_tasks` (sweep loop and `check_all_resolved`) from nest/parser.py

  Python dicts are modelled as insertion-ordered association lists with unique
  keys; mutation in place becomes explicit state threading.  Raised exceptions
  become `Except` errors.
-/
import Mathlib

namespace Nest

/-! ## Python runtime types for the structural matcher -/

/-- The closed set of runtime types appearing in matcher claims. -/
inductive PyType
  | tInt | tBool | tStr | tFloat | tNoneType | tObject
  | tList | tSet | tTuple | tDict | tFunction | tNestModule
  deriving DecidableEq, Repr

/-- Python `issubclass` restricted to our universe: reflexive, `bool <: int`,
    and everything a subclass of `object`. -/
def issubclass (a b : PyType) : Bool :=
  a == b || (a == .tBool && b == .tInt) || b == .tObject

/-- Type annotations as the matcher sees them: the literal `None` annotation,
    plain types, and subscripted/bare `typing` constructs.  `none` arguments
    model a bare construct whose `__args__` is `None`.  For `callable`,
    Python's `Callable[[p1,...,pn], r].__args__` is `(p1,...,pn,r)`, modelled
    as the pair (parameter list, return annotation). -/
inductive Anno
  | any
  | noneLit
  | exact (t : PyType)
  | list (arg : Option Anno)
  | set (arg : Option Anno)
  | tuple (args : Option (List Anno))
  | dict (args : Option (Anno × Anno))
  | union (args : Option (List Anno))
  | callable (args : Option (List Anno × Anno))
  | iterable
  | iterator

mutual

/-- Structural equality of annotations, as Python's `==` on `typing` objects. -/
def annoBEq : Anno → Anno → Bool
  | .any, .any => true
  | .noneLit, .noneLit => true
  | .exact t, .exact u => t == u
  | .list a, .list b => optAnnoBEq a b
  | .set a, .set b => optAnnoBEq a b
  | .tuple a, .tuple b => optListAnnoBEq a b
  | .dict a, .dict b => optPairAnnoBEq a b
  | .union a, .union b => optListAnnoBEq a b
  | .callable a, .callable b => optCallArgsBEq a b
  | .iterable, .iterable => true
  | .iterator, .iterator => true
  | _, _ => false

def optAnnoBEq : Option Anno → Option Anno → Bool
  | Option.none, Option.none => true
  | Option.some a, Option.some b => annoBEq a b
  | _, _ => false

def listAnnoBEq : List Anno → List Anno → Bool
  | [], [] => true
  | a :: as, b :: bs => annoBEq a b && listAnnoBEq as bs
  | _, _ => false

def optListAnnoBEq : Option (List Anno) → Option (List Anno) → Bool
  | Option.none, Option.none => true
  | Option.some a, Option.some b => listAnnoBEq a b
  | _, _ => false

def optPairAnnoBEq : Option (Anno × Anno) → Option (Anno × Anno) → Bool
  | Option.none, Option.none => true
  | Option.some (a1, a2), Option.some (b1, b2) => annoBEq a1 b1 && annoBEq a2 b2
  | _, _ => false

def optCallArgsBEq : Option (List Anno × Anno) → Option (List Anno × Anno) → Bool
  | Option.none, Option.none => true
  | Option.some (ps, r), Option.some (qs, s) => listAnnoBEq ps qs && annoBEq r s
  | _, _ => false

end

mutual

theorem annoBEq_iff (a b : Anno) : annoBEq a b = true ↔ a = b := by
  cases a <;> cases b <;> simp [annoBEq] <;>
    first
      | exact optAnnoBEq_iff _ _
      | exact optListAnnoBEq_iff _ _
      | exact optPairAnnoBEq_iff _ _
      | exact optCallArgsBEq_iff _ _

theorem optAnnoBEq_iff (a b : Option Anno) : optAnnoBEq a b = true ↔ a = b := by
  cases a <;> cases b <;> simp [optAnnoBEq] <;> exact annoBEq_iff _ _

theorem listAnnoBEq_iff (a b : List Anno) : listAnnoBEq a b = true ↔ a = b := by
  cases a with
  | nil => cases b <;> simp [listAnnoBEq]
  | cons x xs =>
    cases b with
    | nil => simp [listAnnoBEq]
    | cons y ys =>
      simp only [listAnnoBEq, Bool.and_eq_true, List.cons.injEq]
      rw [annoBEq_iff, listAnnoBEq_iff]

theorem optListAnnoBEq_iff (a b : Option (List Anno)) : optListAnnoBEq a b = true ↔ a = b := by
  cases a <;> cases b <;> simp [optListAnnoBEq] <;> exact listAnnoBEq_iff _ _

theorem optPairAnnoBEq_iff (a b : Option (Anno × Anno)) : optPairAnnoBEq a b = true ↔ a = b := by
  cases a with
  | none => cases b <;> simp [optPairAnnoBEq]
  | some p =>
    cases b with
    | none => simp [optPairAnnoBEq]
    | some q =>
      obtain ⟨a1, a2⟩ := p
      obtain ⟨b1, b2⟩ := q
      simp only [optPairAnnoBEq, Bool.and_eq_true, Option.some.injEq, Prod.mk.injEq]
      rw [annoBEq_iff, annoBEq_iff]

theorem optCallArgsBEq_iff (a b : Option (List Anno × Anno)) : optCallArgsBEq a b = true ↔ a = b := by
  cases a with
  | none => cases b <;> simp [optCallArgsBEq]
  | some p =>
    cases b with
    | none => simp [optCallArgsBEq]
    | some q =>
      obtain ⟨ps, r⟩ := p
      obtain ⟨qs, s⟩ := q
      simp only [optCallArgsBEq, Bool.and_eq_true, Option.some.injEq, Prod.mk.injEq]
      rw [listAnnoBEq_iff, annoBEq_iff]

end

/-- One parameter of a callable's signature: its name, its declared annotation
    (`none` models `inspect.Parameter.empty`), and whether it has a default. -/
structure Param where
  name : String
  anno : Option Anno
  hasDefault : Bool

/-- Runtime values fed to the matcher.  `func` is an ordinary callable carrying
    its signature; `nestModule` is a deferred module instance carrying the
    descriptor signature, its return annotation, and the names of parameters
    already bound (`var.params.keys()`). -/
inductive PyValue
  | none
  | int (n : Int)
  | bool (b : Bool)
  | str (s : String)
  | float
  | vlist (xs : List PyValue)
  | vset (xs : List PyValue)
  | vtuple (xs : List PyValue)
  | vdict (entries : List (PyValue × PyValue))
  | func (params : List Param) (ret : Option Anno)
  | nestModule (sig : List Param) (ret : Option Anno) (bound : List String)

/-- `type(var)` for our value universe. -/
def typeOf : PyValue → PyType
  | .none => .tNoneType
  | .int _ => .tInt
  | .bool _ => .tBool
  | .str _ => .tStr
  | .float => .tFloat
  | .vlist _ => .tList
  | .vset _ => .tSet
  | .vtuple _ => .tTuple
  | .vdict _ => .tDict
  | .func _ _ => .tFunction
  | .nestModule _ _ _ => .tNestModule

/-- Python `callable(var)` on our universe. -/
def isCallable : PyValue → Bool
  | .func _ _ => true
  | .nestModule _ _ _ => true
  | _ => false

/-- The still-open positional annotations the `Callable` branch inspects:
    for a Nest module, signature parameters not yet bound and without a
    default; for an ordinary callable, the full signature. -/
def effectiveAnnos : PyValue → List (Option Anno)
  | .nestModule sig _ bound =>
      (sig.filter (fun p => !(bound.contains p.name) && !p.hasDefault)).map Param.anno
  | .func params _ => params.map Param.anno
  | _ => []

/-- The declared return annotation (`sig.return_annotation`); `none` models
    `inspect.Signature.empty`. -/
def declaredRet : PyValue → Option Anno
  | .func _ r => r
  | .nestModule _ r _ => r
  | _ => Option.none

/-- `x == y` where `x` is a parameter's annotation slot (possibly empty) and
    `y` a `typing` annotation: the empty sentinel equals no annotation. -/
def annSlotEq (x : Option Anno) (y : Anno) : Bool :=
  match x with
  | Option.some a => annoBEq a y
  | Option.none => false

/-- The return-type clause of the `Callable` branch, verbatim from the source:
    `sub_annotation[-1] == Any or sub_annotation[-1] == object or
     sig.return_annotation == sub_annotation[-1] or
     (sig.return_annotation is None and sub_annotation[-1] == type(None))`. -/
def retClauseOk (v : PyValue) (ret : Anno) : Bool :=
  annoBEq ret .any || annoBEq ret (.exact .tObject) || annSlotEq (declaredRet v) ret ||
    (optAnnoBEq (declaredRet v) (Option.some .noneLit) && annoBEq ret (.exact .tNoneType))

/-- `issubclass(var_type, collections.abc.Iterable)` on our universe:
    the container kinds and strings are iterable, scalars and callables not. -/
def isIterableType : PyType → Bool
  | .tList => true
  | .tSet => true
  | .tTuple => true
  | .tDict => true
  | .tStr => true
  | _ => false

mutual

/-- `is_annotation_matched(var, annotation)` from nest/utils.py.  An
    `.error ()` result models the trailing `raise NotImplementedError`. -/
def isAnnotationMatched (var : PyValue) (anno : Anno) : Except Unit Bool :=
  match var, anno with
  | .none, .noneLit => .ok true
  | var, anno =>
    match anno with
    | .exact t => .ok (issubclass (typeOf var) t)
    | .any => .ok true
    | .list arg =>
        match var with
        | .vlist xs =>
            match arg with
            | Option.none => .ok true
            | Option.some a => matchAll xs a
        | _ => .ok false
    | .set arg =>
        match var with
        | .vset xs =>
            match arg with
            | Option.none => .ok true
            | Option.some a => matchAll xs a
        | _ => .ok false
    | .iterable => .ok (isIterableType (typeOf var))
    | .iterator => .ok false
    | .tuple args =>
        match var with
        | .vtuple xs =>
            match args with
            | Option.none => .ok true
            | Option.some annos =>
                if annos.length != xs.length then .ok false
                else matchZip xs annos
        | _ => .ok false
    | .dict args =>
        match var with
        | .vdict entries =>
            match args with
            | Option.none => .ok true
            | Option.some (ka, va) => matchPairs entries ka va
        | _ => .ok false
    | .union args =>
        match args with
        | Option.none => .ok false
        | Option.some alts => matchAny var alts
    | .callable args =>
        if isCallable var then
          match args with
          | Option.none => .ok true
          | Option.some (params, ret) =>
              if (effectiveAnnos var).length == params.length then
                .ok (((effectiveAnnos var).zip params).all (fun p => annSlotEq p.1 p.2) &&
                  retClauseOk var ret)
              else .ok false
        else .ok false
    | .noneLit => .error ()

/-- `all(map(lambda x: is_annotation_matched(x, a), xs))` with Python's lazy,
    short-circuit evaluation. -/
def matchAll (xs : List PyValue) (a : Anno) : Except Unit Bool :=
  match xs with
  | [] => .ok true
  | x :: rest =>
      match isAnnotationMatched x a with
      | .error e => .error e
      | .ok b => if b then matchAll rest a else .ok false

/-- Positional pairwise matching for `Tuple` (both lists have equal length). -/
def matchZip (xs : List PyValue) (annos : List Anno) : Except Unit Bool :=
  match xs, annos with
  | x :: rest, a :: arest =>
      match isAnnotationMatched x a with
      | .error e => .error e
      | .ok b => if b then matchZip rest arest else .ok false
  | _, _ => .ok true

/-- Per-entry key-and-value matching for `Dict`, with Python's short-circuit
    `and` inside the lambda. -/
def matchPairs (entries : List (PyValue × PyValue)) (ka va : Anno) : Except Unit Bool :=
  match entries with
  | [] => .ok true
  | (k, v) :: rest =>
      match isAnnotationMatched k ka with
      | .error e => .error e
      | .ok bk =>
          if bk then
            match isAnnotationMatched v va with
            | .error e => .error e
            | .ok bv => if bv then matchPairs rest ka va else .ok false
          else .ok false

/-- `any(map(lambda y: is_annotation_matched(var, y), alts))`, short-circuit. -/
def matchAny (var : PyValue) (alts : List Anno) : Except Unit Bool :=
  match alts with
  | [] => .ok false
  | a :: rest =>
      match isAnnotationMatched var a with
      | .error e => .error e
      | .ok b => if b then .ok true else matchAny var rest

end

/-! ## Configuration documents (nest/parser.py) -/

/-- A configuration node: the YAML value universe of a Nest document, plus the
    result of instantiating a module.  `moduleInst name args delayed` models
    the value the module constructor call returns: with `delayed = true` a
    `NestModule` deferred instance (constructed with `delay_resolve=True`),
    with `delayed = false` the realized terminal value of an eager call. -/
inductive Node
  | null
  | int (n : Int)
  | bool (b : Bool)
  | str (s : String)
  | seq (xs : List Node)
  | map (entries : List (String × Node))
  | moduleInst (name : String) (args : List (String × Node)) (delayed : Bool)

/-- String-keyed Python dict, insertion ordered. -/
abbrev Dict := List (String × Node)

/-- Python `d[k]` / `k in d` (first occurrence; real dicts have unique keys). -/
def dlookup : Dict → String → Option Node
  | [], _ => Option.none
  | (k0, v0) :: rest, k => if k0 = k then Option.some v0 else dlookup rest k

/-- Python `d[k] = v`: replace the value in place if the key exists,
    otherwise append the new key at the end. -/
def dinsert : Dict → String → Node → Dict
  | [], k, v => [(k, v)]
  | (k0, v0) :: rest, k, v =>
      if k0 = k then (k0, v) :: rest else (k0, v0) :: dinsert rest k v

/-- Python `d.pop(k, None)`: the removed value (if any) and the remaining dict. -/
def dpop : Dict → String → Option Node × Dict
  | [], _ => (Option.none, [])
  | (k0, v0) :: rest, k =>
      if k0 = k then (Option.some v0, rest)
      else
        let r := dpop rest k
        (r.1, (k0, v0) :: r.2)

/- One step of `merge_dict`: Python's body for a single `key in diff`.
   On a key collision where both values are mappings the merge recurses —
   and the slip in `merge_dict(src[key], diff[key], _path+[str(key)])`
   passes the path list into the positional `union` parameter, so every
   nested recursive merge runs with a truthy `union`.  Any other collision
   overwrites with the difference value; an absent key is added only when
   `union` is set. -/
mutual

/-- See the comment above: Python's loop body for one key of `diff`. -/
def mergeStep (src : Dict) (k : String) (dv : Node) (union : Bool) : Dict :=
  match dlookup src k with
  | Option.some sv =>
      match sv, dv with
      | .map sm, .map dm => dinsert src k (.map (mergeDict sm dm true))
      | _, _ => dinsert src k dv
  | Option.none => if union then dinsert src k dv else src
termination_by sizeOf dv

/-- `merge_dict(src, diff, union)` from nest/utils.py: fold `mergeStep` over
    the difference dict in order, mutating (here: threading) the source. -/
def mergeDict (src diff : Dict) (union : Bool) : Dict :=
  match diff with
  | [] => src
  | (k, dv) :: rest => mergeDict (mergeStep src k dv union) rest union
termination_by sizeOf diff

end

/-- Errors raised during `parse_config`: the `TypeError` for an unresolvable
    variable (the spec's `VariableResolutionError`), carrying the full
    reference string as in `'Could not resolve variable "%s".' % name`, and
    the registry lookup failure (the spec's `ModuleNotFoundError`). -/
inductive PErr
  | varNotFound (name : String)
  | moduleNotFound (name : String)
  deriving DecidableEq, Repr

/-- `name.startswith(settings['VARIABLE_PREFIX'])` for the default
    one-character prefix `@`: true iff the first character is `@`. -/
def hasVarMarker (s : String) : Bool :=
  match s.data with
  | [] => false
  | c :: _ => c == '@'

/-- `is_variable`: a string scalar starting with the `@` variable marker. -/
def isVariable : Node → Bool
  | .str s => hasVarMarker s
  | _ => false

/-- `resolve_variable(name)`: strip the leading marker character
    (`name[1:]`), look the key up in the global tier first, then the env
    tier, otherwise raise. -/
def resolveVariable (g env : Dict) (name : String) : Except PErr Node :=
  match dlookup g (name.drop 1) with
  | Option.some v => .ok v
  | Option.none =>
      match dlookup env (name.drop 1) with
      | Option.some v => .ok v
      | Option.none => .error (.varNotFound name)

/-- Python truthiness of a node (`if nest_module_name:`). -/
def truthy : Node → Bool
  | .null => false
  | .bool b => b
  | .int n => n != 0
  | .str s => !(s = "")
  | .seq xs => !xs.isEmpty
  | .map es => !es.isEmpty
  | .moduleInst _ _ _ => true

/-- Modelled from the spec: `nest.modules` (the `NestModule` class and
    `module_manager`) is not part of the visible source.  Per the spec, the
    constructor of a registered module called eagerly returns a realized
    terminal value, and called with `delay_resolve=True` returns a Deferred
    Module Instance carrying the bound arguments. -/
def instantiateModule (name : String) (args : Dict) (delayResolve : Bool) : Node :=
  .moduleInst name args delayResolve

mutual

/-- `parse_config(config, env_vars, global_vars)` from nest/parser.py.
    `strict` is `settings['PARSER_STRICT']`; `reg` tells whether an identifier
    is registered in `module_manager`.  The mutated `global_vars` dict is
    threaded explicitly and returned next to the resolved node. -/
def parseConfig (strict : Bool) (reg : String → Bool) (env : Dict) :
    Node → Dict → Except PErr (Node × Dict)
  | .seq xs, g =>
      match parseItems strict reg env xs g with
      | .error e => .error e
      | .ok r => .ok (.seq r.1, r.2)
  | .map entries, g =>
      match parseEntries strict reg env entries g with
      | .error e => .error e
      | .ok r =>
          match dpop r.1 "_name" with
          | (Option.some nm, rest) =>
              if truthy nm then
                match nm with
                | .str s =>
                    if reg s then .ok (instantiateModule s rest (!strict), r.2)
                    else .error (.moduleNotFound s)
                | _ => .error (.moduleNotFound "<non-string name>")
              else .ok (.map rest, r.2)
          | (Option.none, rest) => .ok (.map rest, r.2)
  | other, g => .ok (other, g)

/-- The element loop shared by the top-level list branch (lines 42-47) and the
    list-valued mapping entry branch (lines 52-57): variable strings are
    substituted with the scope as of that element, mappings recurse, and any
    other element (including a nested list) is left unchanged. -/
def parseItems (strict : Bool) (reg : String → Bool) (env : Dict) :
    List Node → Dict → Except PErr (List Node × Dict)
  | [], g => .ok ([], g)
  | x :: rest, g =>
      match x with
      | .str s =>
          if hasVarMarker s then
            match resolveVariable g env s with
            | .error e => .error e
            | .ok v =>
                match parseItems strict reg env rest g with
                | .error e => .error e
                | .ok r => .ok (v :: r.1, r.2)
          else
            match parseItems strict reg env rest g with
            | .error e => .error e
            | .ok r => .ok (.str s :: r.1, r.2)
      | .map m =>
          match parseConfig strict reg env (.map m) g with
          | .error e => .error e
          | .ok pv =>
              match parseItems strict reg env rest pv.2 with
              | .error e => .error e
              | .ok r => .ok (pv.1 :: r.1, r.2)
      | other =>
          match parseItems strict reg env rest g with
          | .error e => .error e
          | .ok r => .ok (other :: r.1, r.2)

/-- The `for key, val in config.items()` loop of the mapping branch: variable
    values substituted in place, list values run through the element loop,
    mapping values recurse, and a recursed `_var` value is union-merged into
    the global tier.  (When the parsed `_var` value is not a mapping the
    original code would fail iterating it; no claim exercises that corner and
    the merge is skipped here.) -/
def parseEntries (strict : Bool) (reg : String → Bool) (env : Dict) :
    List (String × Node) → Dict → Except PErr (List (String × Node) × Dict)
  | [], g => .ok ([], g)
  | (k, v) :: rest, g =>
      match v with
      | .str s =>
          if hasVarMarker s then
            match resolveVariable g env s with
            | .error e => .error e
            | .ok rv =>
                match parseEntries strict reg env rest g with
                | .error e => .error e
                | .ok r => .ok ((k, rv) :: r.1, r.2)
          else
            match parseEntries strict reg env rest g with
            | .error e => .error e
            | .ok r => .ok ((k, .str s) :: r.1, r.2)
      | .seq xs =>
          match parseItems strict reg env xs g with
          | .error e => .error e
          | .ok ys =>
              match parseEntries strict reg env rest ys.2 with
              | .error e => .error e
              | .ok r => .ok ((k, .seq ys.1) :: r.1, r.2)
      | .map m =>
          match parseConfig strict reg env (.map m) g with
          | .error e => .error e
          | .ok pv =>
              match parseEntries strict reg env rest
                (if k = "_var" then
                  match pv.1 with
                  | .map pm => mergeDict pv.2 pm true
                  | _ => pv.2
                 else pv.2) with
              | .error e => .error e
              | .ok r => .ok ((k, pv.1) :: r.1, r.2)
      | other =>
          match parseEntries strict reg env rest g with
          | .error e => .error e
          | .ok r => .ok ((k, other) :: r.1, r.2)

end

/-- `indent_text(text, indent)` from nest/utils.py. -/
def indentText (text : String) (indent : Nat) : String :=
  String.intercalate "\n"
    ((text.splitOn "\n").map (fun v => String.mk (List.replicate indent (' ')) ++ v))

/-- `type(x).__name__ == 'NestModule'`: only a deferred instance is a
    `NestModule` object; a realized constructor result is not. -/
def isNestModule : Node → Bool
  | .moduleInst _ _ true => true
  | _ => false

/-- Modelled from the spec: `str(NestModule)` (nest/modules.py is not part of
    the visible source); the spec only requires a human-readable textual form
    of the unresolved subtree. -/
def renderNode : Node → String
  | .moduleInst name _ _ => "Unresolved module " ++ name
  | _ => "node"

/-- The message of the `RuntimeError` raised by `check_all_resolved`. -/
def unresolvedMsg (n : Node) : String :=
  "Unresolved Nest module found in the result.\n" ++ indentText (renderNode n) 4

mutual

/-- `check_all_resolved(resolved_config)` from nest/parser.py (`run_tasks`
    helper): recursively walk lists and dict values, raising on the first
    `NestModule` encountered. -/
def checkAllResolved : Node → Except String Unit
  | .seq xs => checkAllList xs
  | .map es => checkAllEntries es
  | n => if isNestModule n then .error (unresolvedMsg n) else .ok ()

def checkAllList : List Node → Except String Unit
  | [] => .ok ()
  | x :: rest =>
      match checkAllResolved x with
      | .error e => .error e
      | .ok _ => checkAllList rest

def checkAllEntries : List (String × Node) → Except String Unit
  | [] => .ok ()
  | (_, v) :: rest =>
      match checkAllResolved v with
      | .error e => .error e
      | .ok _ => checkAllEntries rest

end

mutual

/-- The first deferred module instance `check_all_resolved` encounters on its
    walk (lists in order, then dict values in insertion order), if any. -/
def firstDeferred : Node → Option Node
  | .seq xs => firstDeferredList xs
  | .map es => firstDeferredEntries es
  | n => if isNestModule n then Option.some n else Option.none

def firstDeferredList : List Node → Option Node
  | [] => Option.none
  | x :: rest =>
      match firstDeferred x with
      | Option.some d => Option.some d
      | Option.none => firstDeferredList rest

def firstDeferredEntries : List (String × Node) → Option Node
  | [] => Option.none
  | (_, v) :: rest =>
      match firstDeferred v with
      | Option.some d => Option.some d
      | Option.none => firstDeferredEntries rest

end

mutual

/-- `noInstFlag b n`: the node contains no module instance whose `delayed`
    flag equals `b` anywhere (also inside bound arguments of instances).
    `noInstFlag true` = "contains zero Deferred Module Instances". -/
def noInstFlag (b : Bool) : Node → Bool
  | .seq xs => noInstFlagList b xs
  | .map es => noInstFlagEntries b es
  | .moduleInst _ args d => !(d == b) && noInstFlagEntries b args
  | _ => true

def noInstFlagList (b : Bool) : List Node → Bool
  | [] => true
  | x :: rest => noInstFlag b x && noInstFlagList b rest

def noInstFlagEntries (b : Bool) : List (String × Node) → Bool
  | [] => true
  | (_, v) :: rest => noInstFlag b v && noInstFlagEntries b rest

end

/-- All values of a scope dict satisfy `noInstFlag b`. -/
def scopeNoFlag (b : Bool) (g : Dict) : Bool :=
  noInstFlagEntries b g

/-- The per-iteration scope bookkeeping of the sweep loop in `run_tasks`
    (param-file branch): one `global_vars` dict threads through the whole
    sweep; each iteration union-merges its parameter mapping into it, then
    resolution may add further `_var` globals.  The result lists, per
    iteration, the scope handed to `parse_config` and the scope left behind
    after it; an iteration whose resolution errors ends the sweep. -/
def sweepScopes (strict : Bool) (reg : String → Bool) (env : Dict) (config : Node) :
    List Dict → Dict → List (Dict × Dict)
  | [], _ => []
  | p :: ps, g =>
      let g1 := mergeDict g p true
      match parseConfig strict reg env config g1 with
      | .ok r => (g1, r.2) :: sweepScopes strict reg env config ps r.2
      | .error _ => [(g1, g1)]

/-! ## Association-list dictionary lemmas -/

theorem dlookup_dinsert_self (d : Dict) (k : String) (v : Node) :
    dlookup (dinsert d k v) k = Option.some v := by
  induction d with
  | nil => simp [dinsert, dlookup]
  | cons h rest ih =>
      obtain ⟨k0, v0⟩ := h
      by_cases hk : k0 = k
      · simp [dinsert, dlookup, hk]
      · simp [dinsert, dlookup, hk, ih]

theorem dlookup_dinsert_ne (d : Dict) (k k2 : String) (v : Node) (h : k2 ≠ k) :
    dlookup (dinsert d k v) k2 = dlookup d k2 := by
  induction d with
  | nil => simp [dinsert, dlookup, Ne.symm h]
  | cons hd rest ih =>
      obtain ⟨k0, v0⟩ := hd
      by_cases hk : k0 = k
      · subst hk
        simp [dinsert, dlookup, Ne.symm h]
      · simp [dinsert, dlookup, hk, ih]

theorem dlookup_eq_none_iff (d : Dict) (k : String) :
    dlookup d k = Option.none ↔ k ∉ d.map Prod.fst := by
  induction d with
  | nil => simp [dlookup]
  | cons hd rest ih =>
      obtain ⟨k0, v0⟩ := hd
      simp only [dlookup, List.map_cons, List.mem_cons]
      by_cases hk : k0 = k
      · subst hk; simp
      · simp [hk, ih, Ne.symm hk]

theorem dpop_fst (d : Dict) (k : String) : (dpop d k).1 = dlookup d k := by
  induction d with
  | nil => simp [dpop, dlookup]
  | cons hd rest ih =>
      obtain ⟨k0, v0⟩ := hd
      by_cases hk : k0 = k
      · simp [dpop, dlookup, hk]
      · simp [dpop, dlookup, hk, ih]

theorem dpop_of_absent (d : Dict) (k : String) (h : dlookup d k = Option.none) :
    dpop d k = (Option.none, d) := by
  induction d with
  | nil => simp [dpop]
  | cons hd rest ih =>
      obtain ⟨k0, v0⟩ := hd
      by_cases hk : k0 = k
      · simp [dlookup, hk] at h
      · simp [dlookup, hk] at h
        simp [dpop, hk, ih h]

/-! ## `merge_dict` characterization -/

/-- The value the union-merge leaves at key `k`, written from the amended
    claim: nested mappings merge recursively (always with a truthy union),
    absent keys are added when `union` is set, and on any other collision the
    difference value wins. -/
def mergedValueAt (src diff : Dict) (union : Bool) (k : String) : Option Node :=
  match dlookup diff k with
  | Option.none => dlookup src k
  | Option.some dv =>
      match dlookup src k, dv with
      | Option.some (.map sm), .map dm => Option.some (.map (mergeDict sm dm true))
      | Option.some _, _ => Option.some dv
      | Option.none, _ => if union then Option.some dv else Option.none

theorem mergedValueAt_congr (src src2 diff : Dict) (u : Bool) (k : String)
    (h : dlookup src2 k = dlookup src k) :
    mergedValueAt src2 diff u k = mergedValueAt src diff u k := by
  unfold mergedValueAt
  rw [h]

theorem dlookup_mergeStep_self (src : Dict) (k : String) (dv : Node) (u : Bool) :
    dlookup (mergeStep src k dv u) k =
      (match dlookup src k, dv with
       | Option.some (.map sm), .map dm => Option.some (.map (mergeDict sm dm true))
       | Option.some _, _ => Option.some dv
       | Option.none, _ => if u then Option.some dv else Option.none) := by
  rw [mergeStep]
  cases hsrc : dlookup src k with
  | none => cases u <;> simp [hsrc, dlookup_dinsert_self]
  | some sv => cases sv <;> cases dv <;> simp [hsrc, dlookup_dinsert_self]

theorem dlookup_mergeStep_other (src : Dict) (k k2 : String) (dv : Node) (u : Bool)
    (h : k2 ≠ k) :
    dlookup (mergeStep src k dv u) k2 = dlookup src k2 := by
  rw [mergeStep]
  cases hsrc : dlookup src k with
  | none => cases u <;> simp [dlookup_dinsert_ne _ _ _ _ h]
  | some sv => cases sv <;> cases dv <;> simp [dlookup_dinsert_ne _ _ _ _ h]

theorem dlookup_mergeDict (diff : Dict) (hd : (diff.map Prod.fst).Nodup) :
    ∀ (src : Dict) (u : Bool) (k : String),
      dlookup (mergeDict src diff u) k = mergedValueAt src diff u k := by
  induction diff with
  | nil =>
      intro src u k
      simp [mergeDict, mergedValueAt, dlookup]
  | cons hd0 rest ih =>
      obtain ⟨k0, dv⟩ := hd0
      simp only [List.map_cons, List.nodup_cons] at hd
      intro src u k
      rw [mergeDict, ih hd.2]
      by_cases hk : k = k0
      · subst hk
        have hrest : dlookup rest k = Option.none :=
          (dlookup_eq_none_iff rest k).mpr hd.1
        rw [mergedValueAt, hrest, mergedValueAt]
        rw [dlookup_mergeStep_self]
        simp [dlookup]
      · have hgoal : mergedValueAt src ((k0, dv) :: rest) u k = mergedValueAt src rest u k := by
          rw [mergedValueAt, mergedValueAt]
          have hcons : dlookup ((k0, dv) :: rest) k = dlookup rest k := by
            simp [dlookup, Ne.symm hk]
          rw [hcons]
        rw [hgoal]
        exact mergedValueAt_congr src _ rest u k (dlookup_mergeStep_other src k0 k dv u hk)

theorem dlookup_mergeDict_isSome (diff : Dict) :
    ∀ (src : Dict) (u : Bool) (k : String),
      (dlookup src k).isSome → (dlookup (mergeDict src diff u) k).isSome := by
  induction diff with
  | nil =>
      intro src u k h
      simpa [mergeDict] using h
  | cons hd0 rest ih =>
      obtain ⟨k0, dv⟩ := hd0
      intro src u k h
      rw [mergeDict]
      apply ih
      by_cases hk : k = k0
      · subst hk
        rw [dlookup_mergeStep_self]
        cases hsrc : dlookup src k with
        | none => simp [hsrc] at h
        | some sv => cases sv <;> cases dv <;> simp
      · rw [dlookup_mergeStep_other _ _ _ _ _ hk]
        exact h

/-! ## Documents without module references or variable references (C8) -/

mutual

/-- A document slice with no `_name` keys, no `@`-variable strings, and (being
    a plain document) no instantiated modules. -/
def cleanDoc : Node → Bool
  | .str s => !(hasVarMarker s)
  | .seq xs => cleanList xs
  | .map es => cleanEntries es
  | .moduleInst _ _ _ => false
  | _ => true

def cleanList : List Node → Bool
  | [] => true
  | x :: rest => cleanDoc x && cleanList rest

def cleanEntries : List (String × Node) → Bool
  | [] => true
  | (k, v) :: rest => !(k = "_name") && cleanDoc v && cleanEntries rest

end

theorem cleanEntries_no_name (es : List (String × Node)) (h : cleanEntries es = true) :
    dlookup es "_name" = Option.none := by
  induction es with
  | nil => simp [dlookup]
  | cons hd rest ih =>
      obtain ⟨k, v⟩ := hd
      simp only [cleanEntries, Bool.and_eq_true, Bool.not_eq_true'] at h
      simp [dlookup, of_decide_eq_false h.1.1, ih h.2]

mutual

theorem parseConfig_clean_id (strict : Bool) (reg : String → Bool) (env : Dict)
    (cfg : Node) (g : Dict) (h : cleanDoc cfg = true) :
    ∃ g2, parseConfig strict reg env cfg g = .ok (cfg, g2) := by
  cases cfg with
  | seq xs =>
      obtain ⟨g2, hx⟩ := parseItems_clean_id strict reg env xs g (by simpa [cleanDoc] using h)
      exact ⟨g2, by rw [parseConfig, hx]⟩
  | map es =>
      have he : cleanEntries es = true := by simpa [cleanDoc] using h
      obtain ⟨g2, hx⟩ := parseEntries_clean_id strict reg env es g he
      refine ⟨g2, ?_⟩
      rw [parseConfig, hx]
      simp [dpop_of_absent es "_name" (cleanEntries_no_name es he)]
  | moduleInst name args d => simp [cleanDoc] at h
  | null => exact ⟨g, by rw [parseConfig] <;> simp⟩
  | int n => exact ⟨g, by rw [parseConfig] <;> simp⟩
  | bool b => exact ⟨g, by rw [parseConfig] <;> simp⟩
  | str s => exact ⟨g, by rw [parseConfig] <;> simp⟩

theorem parseItems_clean_id (strict : Bool) (reg : String → Bool) (env : Dict)
    (xs : List Node) (g : Dict) (h : cleanList xs = true) :
    ∃ g2, parseItems strict reg env xs g = .ok (xs, g2) := by
  cases xs with
  | nil => exact ⟨g, by rw [parseItems]⟩
  | cons x rest =>
      simp only [cleanList, Bool.and_eq_true] at h
      cases x with
      | str s =>
          have hs : hasVarMarker s = false := by
            simpa [cleanDoc] using h.1
          obtain ⟨g2, hrest⟩ := parseItems_clean_id strict reg env rest g h.2
          exact ⟨g2, by rw [parseItems]; simp [hs, hrest]⟩
      | map m =>
          obtain ⟨g2, hm⟩ := parseConfig_clean_id strict reg env (.map m) g h.1
          obtain ⟨g3, hrest⟩ := parseItems_clean_id strict reg env rest g2 h.2
          exact ⟨g3, by rw [parseItems]; rw [hm]; simp [hrest]⟩
      | null =>
          obtain ⟨g2, hrest⟩ := parseItems_clean_id strict reg env rest g h.2
          exact ⟨g2, by rw [parseItems] <;> simp [hrest]⟩
      | int n =>
          obtain ⟨g2, hrest⟩ := parseItems_clean_id strict reg env rest g h.2
          exact ⟨g2, by rw [parseItems] <;> simp [hrest]⟩
      | bool b =>
          obtain ⟨g2, hrest⟩ := parseItems_clean_id strict reg env rest g h.2
          exact ⟨g2, by rw [parseItems] <;> simp [hrest]⟩
      | seq ys =>
          obtain ⟨g2, hrest⟩ := parseItems_clean_id strict reg env rest g h.2
          exact ⟨g2, by rw [parseItems] <;> simp [hrest]⟩
      | moduleInst name args d => simp [cleanDoc] at h

theorem parseEntries_clean_id (strict : Bool) (reg : String → Bool) (env : Dict)
    (es : List (String × Node)) (g : Dict) (h : cleanEntries es = true) :
    ∃ g2, parseEntries strict reg env es g = .ok (es, g2) := by
  cases es with
  | nil => exact ⟨g, by rw [parseEntries]⟩
  | cons hd rest =>
      obtain ⟨k, v⟩ := hd
      simp only [cleanEntries, Bool.and_eq_true] at h
      cases v with
      | str s =>
          have hs : hasVarMarker s = false := by
            simpa [cleanDoc] using h.1.2
          obtain ⟨g2, hrest⟩ := parseEntries_clean_id strict reg env rest g h.2
          exact ⟨g2, by rw [parseEntries]; simp [hs, hrest]⟩
      | map m =>
          obtain ⟨g2, hm⟩ := parseConfig_clean_id strict reg env (.map m) g h.1.2
          obtain ⟨g3, hrest⟩ := parseEntries_clean_id strict reg env rest
            (if k = "_var" then mergeDict g2 m true else g2) h.2
          exact ⟨g3, by rw [parseEntries, hm]; simp [hrest]⟩
      | seq ys =>
          have hys : cleanList ys = true := by simpa [cleanDoc] using h.1.2
          obtain ⟨g2, hy⟩ := parseItems_clean_id strict reg env ys g hys
          obtain ⟨g3, hrest⟩ := parseEntries_clean_id strict reg env rest g2 h.2
          exact ⟨g3, by rw [parseEntries]; rw [hy]; simp [hrest]⟩
      | null =>
          obtain ⟨g2, hrest⟩ := parseEntries_clean_id strict reg env rest g h.2
          exact ⟨g2, by rw [parseEntries] <;> simp [hrest]⟩
      | int n =>
          obtain ⟨g2, hrest⟩ := parseEntries_clean_id strict reg env rest g h.2
          exact ⟨g2, by rw [parseEntries] <;> simp [hrest]⟩
      | bool b =>
          obtain ⟨g2, hrest⟩ := parseEntries_clean_id strict reg env rest g h.2
          exact ⟨g2, by rw [parseEntries] <;> simp [hrest]⟩
      | moduleInst name args d => simp [cleanDoc] at h

end

/-! ## Module-instance flag invariants (C2) -/

theorem dlookup_noFlag (b : Bool) (d : Dict) (k : String) (v : Node)
    (hd : noInstFlagEntries b d = true) (hl : dlookup d k = Option.some v) :
    noInstFlag b v = true := by
  induction d with
  | nil => simp [dlookup] at hl
  | cons hd0 rest ih =>
      obtain ⟨k0, v0⟩ := hd0
      simp only [noInstFlagEntries, Bool.and_eq_true] at hd
      by_cases hk : k0 = k
      · simp only [dlookup, if_pos hk] at hl
        cases hl
        exact hd.1
      · simp only [dlookup, if_neg hk] at hl
        exact ih hd.2 hl

theorem dinsert_noFlag (b : Bool) (d : Dict) (k : String) (v : Node)
    (hd : noInstFlagEntries b d = true) (hv : noInstFlag b v = true) :
    noInstFlagEntries b (dinsert d k v) = true := by
  induction d with
  | nil => simp [dinsert, noInstFlagEntries, hv]
  | cons hd0 rest ih =>
      obtain ⟨k0, v0⟩ := hd0
      simp only [noInstFlagEntries, Bool.and_eq_true] at hd
      by_cases hk : k0 = k
      · simp [dinsert, hk, noInstFlagEntries, hv, hd.2]
      · simp only [dinsert, if_neg hk, noInstFlagEntries, Bool.and_eq_true]
        exact ⟨hd.1, ih hd.2⟩

theorem dpop_noFlag (b : Bool) (d : Dict) (k : String)
    (hd : noInstFlagEntries b d = true) :
    noInstFlagEntries b (dpop d k).2 = true := by
  induction d with
  | nil => simpa [dpop] using hd
  | cons hd0 rest ih =>
      obtain ⟨k0, v0⟩ := hd0
      simp only [noInstFlagEntries, Bool.and_eq_true] at hd
      by_cases hk : k0 = k
      · simp [dpop, hk, hd.2]
      · simp only [dpop, if_neg hk, noInstFlagEntries, Bool.and_eq_true]
        exact ⟨hd.1, ih hd.2⟩

mutual

theorem mergeStep_noFlag (b : Bool) (src : Dict) (k : String) (dv : Node) (u : Bool)
    (hs : noInstFlagEntries b src = true) (hv : noInstFlag b dv = true) :
    noInstFlagEntries b (mergeStep src k dv u) = true := by
  rw [mergeStep]
  cases hsrc : dlookup src k with
  | none =>
      cases u with
      | true => exact dinsert_noFlag b src k dv hs hv
      | false => exact hs
  | some sv =>
      have hsv : noInstFlag b sv = true := dlookup_noFlag b src k sv hs hsrc
      cases sv with
      | map sm =>
          cases dv with
          | map dm =>
              refine dinsert_noFlag b src k _ hs ?_
              have hsm : noInstFlagEntries b sm = true := by
                simpa [noInstFlag] using hsv
              have hdm : noInstFlagEntries b dm = true := by
                simpa [noInstFlag] using hv
              simpa [noInstFlag] using mergeDict_noFlag b sm dm true hsm hdm
          | null => exact dinsert_noFlag b src k _ hs hv
          | int n => exact dinsert_noFlag b src k _ hs hv
          | bool b2 => exact dinsert_noFlag b src k _ hs hv
          | str s2 => exact dinsert_noFlag b src k _ hs hv
          | seq xs => exact dinsert_noFlag b src k _ hs hv
          | moduleInst nm args dl => exact dinsert_noFlag b src k _ hs hv
      | null => exact dinsert_noFlag b src k _ hs hv
      | int n => exact dinsert_noFlag b src k _ hs hv
      | bool b2 => exact dinsert_noFlag b src k _ hs hv
      | str s2 => exact dinsert_noFlag b src k _ hs hv
      | seq xs => exact dinsert_noFlag b src k _ hs hv
      | moduleInst nm args dl => exact dinsert_noFlag b src k _ hs hv

theorem mergeDict_noFlag (b : Bool) (src diff : Dict) (u : Bool)
    (hs : noInstFlagEntries b src = true) (hd : noInstFlagEntries b diff = true) :
    noInstFlagEntries b (mergeDict src diff u) = true := by
  cases diff with
  | nil => simpa [mergeDict] using hs
  | cons hd0 rest =>
      obtain ⟨k, dv⟩ := hd0
      simp only [noInstFlagEntries, Bool.and_eq_true] at hd
      rw [mergeDict]
      exact mergeDict_noFlag b (mergeStep src k dv u) rest u
        (mergeStep_noFlag b src k dv u hs hd.1) hd.2

end

theorem resolveVariable_noFlag (b : Bool) (g env : Dict) (s : String) (v : Node)
    (hg : noInstFlagEntries b g = true) (henv : noInstFlagEntries b env = true)
    (hok : resolveVariable g env s = .ok v) :
    noInstFlag b v = true := by
  rw [resolveVariable] at hok
  cases hl : dlookup g (s.drop 1) with
  | some w =>
      rw [hl] at hok
      cases hok
      exact dlookup_noFlag b g _ v hg hl
  | none =>
      rw [hl] at hok
      cases hl2 : dlookup env (s.drop 1) with
      | some w =>
          rw [hl2] at hok
          cases hok
          exact dlookup_noFlag b env _ v henv hl2
      | none => rw [hl2] at hok; cases hok

theorem not_beq_self_flag (b : Bool) : (!((!b) == b)) = true := by cases b <;> rfl

mutual

theorem parseConfig_noFlag (strict : Bool) (reg : String → Bool) (env : Dict)
    (cfg : Node) (g : Dict)
    (hc : noInstFlag strict cfg = true)
    (henv : noInstFlagEntries strict env = true)
    (hg : noInstFlagEntries strict g = true) :
    (match parseConfig strict reg env cfg g with
     | .ok r => noInstFlag strict r.1 = true ∧ noInstFlagEntries strict r.2 = true
     | .error _ => True) := by
  cases cfg with
  | seq xs =>
      have hi := parseItems_noFlag strict reg env xs g
        (by simpa [noInstFlag] using hc) henv hg
      rw [parseConfig]
      cases hx : parseItems strict reg env xs g with
      | error e => simp [hx]
      | ok p =>
          rw [hx] at hi
          simp only [] at hi ⊢
          exact ⟨by simpa [noInstFlag] using hi.1, hi.2⟩
  | map es =>
      have he := parseEntries_noFlag strict reg env es g
        (by simpa [noInstFlag] using hc) henv hg
      rw [parseConfig]
      cases hx : parseEntries strict reg env es g with
      | error e => simp [hx]
      | ok p =>
          rw [hx] at he
          simp only [] at he ⊢
          have hrest : noInstFlagEntries strict (dpop p.1 "_name").2 = true :=
            dpop_noFlag strict p.1 "_name" he.1
          cases hpop : dpop p.1 "_name" with
          | mk onm rest =>
              rw [hpop] at hrest
              simp only [] at hrest ⊢
              cases onm with
              | none =>
                  simp only []
                  exact ⟨by simpa [noInstFlag] using hrest, he.2⟩
              | some nm =>
                  simp only []
                  by_cases ht : truthy nm = true
                  · rw [if_pos ht]
                    cases nm with
                    | str s =>
                        simp only []
                        by_cases hr : reg s = true
                        · rw [if_pos hr]
                          simp only []
                          refine ⟨?_, he.2⟩
                          simp only [instantiateModule, noInstFlag, Bool.and_eq_true]
                          exact ⟨not_beq_self_flag strict, hrest⟩
                        · rw [if_neg hr]
                          simp
                    | null => simp
                    | int n => simp
                    | bool b2 => simp
                    | seq ys => simp
                    | map m2 => simp
                    | moduleInst nm2 args2 d2 => simp
                  · rw [if_neg ht]
                    exact ⟨by simpa [noInstFlag] using hrest, he.2⟩
  | null =>
      simp only [parseConfig]
      exact ⟨hc, hg⟩
  | int n =>
      simp only [parseConfig]
      exact ⟨hc, hg⟩
  | bool b2 =>
      simp only [parseConfig]
      exact ⟨hc, hg⟩
  | str s =>
      simp only [parseConfig]
      exact ⟨hc, hg⟩
  | moduleInst nm args d =>
      simp only [parseConfig]
      exact ⟨hc, hg⟩

theorem parseItems_noFlag (strict : Bool) (reg : String → Bool) (env : Dict)
    (xs : List Node) (g : Dict)
    (hc : noInstFlagList strict xs = true)
    (henv : noInstFlagEntries strict env = true)
    (hg : noInstFlagEntries strict g = true) :
    (match parseItems strict reg env xs g with
     | .ok r => noInstFlagList strict r.1 = true ∧ noInstFlagEntries strict r.2 = true
     | .error _ => True) := by
  cases xs with
  | nil =>
      rw [parseItems]
      exact ⟨rfl, hg⟩
  | cons x rest =>
      simp only [noInstFlagList, Bool.and_eq_true] at hc
      cases x with
      | str s =>
          rw [parseItems]
          by_cases hs : hasVarMarker s = true
          · rw [if_pos hs]
            cases hv : resolveVariable g env s with
            | error e => simp [hv]
            | ok v =>
                simp only []
                have hi := parseItems_noFlag strict reg env rest g hc.2 henv hg
                cases hx : parseItems strict reg env rest g with
                | error e => simp [hx]
                | ok p =>
                    rw [hx] at hi
                    simp only [] at hi ⊢
                    refine ⟨?_, hi.2⟩
                    simp only [noInstFlagList, Bool.and_eq_true]
                    exact ⟨resolveVariable_noFlag strict g env s v hg henv hv, hi.1⟩
          · rw [if_neg hs]
            have hi := parseItems_noFlag strict reg env rest g hc.2 henv hg
            cases hx : parseItems strict reg env rest g with
            | error e => simp [hx]
            | ok p =>
                rw [hx] at hi
                simp only [] at hi ⊢
                refine ⟨?_, hi.2⟩
                simp only [noInstFlagList, Bool.and_eq_true]
                exact ⟨by simp [noInstFlag], hi.1⟩
      | map m =>
          rw [parseItems]
          have hpv := parseConfig_noFlag strict reg env (.map m) g hc.1 henv hg
          cases hm : parseConfig strict reg env (.map m) g with
          | error e => simp [hm]
          | ok pv =>
              rw [hm] at hpv
              simp only [] at hpv ⊢
              have hi := parseItems_noFlag strict reg env rest pv.2 hc.2 henv hpv.2
              cases hx : parseItems strict reg env rest pv.2 with
              | error e => simp [hx]
              | ok p =>
                  rw [hx] at hi
                  simp only [] at hi ⊢
                  refine ⟨?_, hi.2⟩
                  simp only [noInstFlagList, Bool.and_eq_true]
                  exact ⟨hpv.1, hi.1⟩
      | null =>
          simp only [parseItems]
          have hi := parseItems_noFlag strict reg env rest g hc.2 henv hg
          cases hx : parseItems strict reg env rest g with
          | error e => simp [hx]
          | ok p =>
              rw [hx] at hi
              simp only [] at hi ⊢
              exact ⟨by simp [noInstFlagList, noInstFlag, hi.1], hi.2⟩
      | int n =>
          simp only [parseItems]
          have hi := parseItems_noFlag strict reg env rest g hc.2 henv hg
          cases hx : parseItems strict reg env rest g with
          | error e => simp [hx]
          | ok p =>
              rw [hx] at hi
              simp only [] at hi ⊢
              exact ⟨by simp [noInstFlagList, noInstFlag, hi.1], hi.2⟩
      | bool b2 =>
          simp only [parseItems]
          have hi := parseItems_noFlag strict reg env rest g hc.2 henv hg
          cases hx : parseItems strict reg env rest g with
          | error e => simp [hx]
          | ok p =>
              rw [hx] at hi
              simp only [] at hi ⊢
              exact ⟨by simp [noInstFlagList, noInstFlag, hi.1], hi.2⟩
      | seq ys =>
          simp only [parseItems]
          have hi := parseItems_noFlag strict reg env rest g hc.2 henv hg
          cases hx : parseItems strict reg env rest g with
          | error e => simp [hx]
          | ok p =>
              rw [hx] at hi
              simp only [] at hi ⊢
              refine ⟨?_, hi.2⟩
              simp only [noInstFlagList, Bool.and_eq_true]
              exact ⟨hc.1, hi.1⟩
      | moduleInst nm args d =>
          simp only [parseItems]
          have hi := parseItems_noFlag strict reg env rest g hc.2 henv hg
          cases hx : parseItems strict reg env rest g with
          | error e => simp [hx]
          | ok p =>
              rw [hx] at hi
              simp only [] at hi ⊢
              refine ⟨?_, hi.2⟩
              simp only [noInstFlagList, Bool.and_eq_true]
              exact ⟨hc.1, hi.1⟩

theorem parseEntries_noFlag (strict : Bool) (reg : String → Bool) (env : Dict)
    (es : List (String × Node)) (g : Dict)
    (hc : noInstFlagEntries strict es = true)
    (henv : noInstFlagEntries strict env = true)
    (hg : noInstFlagEntries strict g = true) :
    (match parseEntries strict reg env es g with
     | .ok r => noInstFlagEntries strict r.1 = true ∧ noInstFlagEntries strict r.2 = true
     | .error _ => True) := by
  rcases es with _ | ⟨⟨k, v⟩, rest⟩
  · rw [parseEntries]
    exact ⟨rfl, hg⟩
  · simp only [noInstFlagEntries, Bool.and_eq_true] at hc
    cases v with
    | str s =>
        rw [parseEntries]
        by_cases hs : hasVarMarker s = true
        · rw [if_pos hs]
          cases hv : resolveVariable g env s with
          | error e => simp [hv]
          | ok rv =>
              simp only []
              have hi := parseEntries_noFlag strict reg env rest g hc.2 henv hg
              cases hx : parseEntries strict reg env rest g with
              | error e => simp [hx]
              | ok p =>
                  rw [hx] at hi
                  simp only [] at hi ⊢
                  refine ⟨?_, hi.2⟩
                  simp only [noInstFlagEntries, Bool.and_eq_true]
                  exact ⟨resolveVariable_noFlag strict g env s rv hg henv hv, hi.1⟩
        · rw [if_neg hs]
          have hi := parseEntries_noFlag strict reg env rest g hc.2 henv hg
          cases hx : parseEntries strict reg env rest g with
          | error e => simp [hx]
          | ok p =>
              rw [hx] at hi
              simp only [] at hi ⊢
              refine ⟨?_, hi.2⟩
              simp only [noInstFlagEntries, Bool.and_eq_true]
              exact ⟨by simp [noInstFlag], hi.1⟩
    | seq ys =>
        rw [parseEntries]
        have hyp := parseItems_noFlag strict reg env ys g
          (by simpa [noInstFlag] using hc.1) henv hg
        cases hy : parseItems strict reg env ys g with
        | error e => simp [hy]
        | ok yp =>
            rw [hy] at hyp
            simp only [] at hyp ⊢
            have hi := parseEntries_noFlag strict reg env rest yp.2 hc.2 henv hyp.2
            cases hx : parseEntries strict reg env rest yp.2 with
            | error e => simp [hx]
            | ok p =>
                rw [hx] at hi
                simp only [] at hi ⊢
                refine ⟨?_, hi.2⟩
                simp only [noInstFlagEntries, Bool.and_eq_true]
                exact ⟨by simpa [noInstFlag] using hyp.1, hi.1⟩
    | map m =>
        rw [parseEntries]
        have hpv := parseConfig_noFlag strict reg env (.map m) g hc.1 henv hg
        cases hm : parseConfig strict reg env (.map m) g with
        | error e => simp [hm]
        | ok pv =>
            rw [hm] at hpv
            simp only [] at hpv ⊢
            have hg3 : noInstFlagEntries strict
                (if k = "_var" then
                  match pv.1 with
                  | .map pm => mergeDict pv.2 pm true
                  | _ => pv.2
                 else pv.2) = true := by
              by_cases hk : k = "_var"
              · rw [if_pos hk]
                cases hpv1 : pv.1 with
                | map pm =>
                    refine mergeDict_noFlag strict pv.2 pm true hpv.2 ?_
                    have hh := hpv.1
                    rw [hpv1] at hh
                    simpa [noInstFlag] using hh
                | null => exact hpv.2
                | int n => exact hpv.2
                | bool b2 => exact hpv.2
                | str s2 => exact hpv.2
                | seq ys2 => exact hpv.2
                | moduleInst nm2 args2 d2 => exact hpv.2
              · rw [if_neg hk]; exact hpv.2
            have hi := parseEntries_noFlag strict reg env rest
              (if k = "_var" then
                match pv.1 with
                | .map pm => mergeDict pv.2 pm true
                | _ => pv.2
               else pv.2) hc.2 henv hg3
            cases hx : parseEntries strict reg env rest
              (if k = "_var" then
                match pv.1 with
                | .map pm => mergeDict pv.2 pm true
                | _ => pv.2
               else pv.2) with
            | error e => simp [hx]
            | ok p =>
                rw [hx] at hi
                simp only [] at hi ⊢
                refine ⟨?_, hi.2⟩
                simp only [noInstFlagEntries, Bool.and_eq_true]
                exact ⟨hpv.1, hi.1⟩
    | null =>
        simp only [parseEntries]
        have hi := parseEntries_noFlag strict reg env rest g hc.2 henv hg
        cases hx : parseEntries strict reg env rest g with
        | error e => simp [hx]
        | ok p =>
            rw [hx] at hi
            simp only [] at hi ⊢
            exact ⟨by simp [noInstFlagEntries, noInstFlag, hi.1], hi.2⟩
    | int n =>
        simp only [parseEntries]
        have hi := parseEntries_noFlag strict reg env rest g hc.2 henv hg
        cases hx : parseEntries strict reg env rest g with
        | error e => simp [hx]
        | ok p =>
            rw [hx] at hi
            simp only [] at hi ⊢
            exact ⟨by simp [noInstFlagEntries, noInstFlag, hi.1], hi.2⟩
    | bool b2 =>
        simp only [parseEntries]
        have hi := parseEntries_noFlag strict reg env rest g hc.2 henv hg
        cases hx : parseEntries strict reg env rest g with
        | error e => simp [hx]
        | ok p =>
            rw [hx] at hi
            simp only [] at hi ⊢
            exact ⟨by simp [noInstFlagEntries, noInstFlag, hi.1], hi.2⟩
    | moduleInst nm args d =>
        simp only [parseEntries]
        have hi := parseEntries_noFlag strict reg env rest g hc.2 henv hg
        cases hx : parseEntries strict reg env rest g with
        | error e => simp [hx]
        | ok p =>
            rw [hx] at hi
            simp only [] at hi ⊢
            refine ⟨?_, hi.2⟩
            simp only [noInstFlagEntries, Bool.and_eq_true]
            exact ⟨hc.1, hi.1⟩

end

/-! ## Global scope only grows during resolution (C10) -/

mutual

theorem parseConfig_keys (strict : Bool) (reg : String → Bool) (env : Dict)
    (cfg : Node) (g : Dict) :
    (match parseConfig strict reg env cfg g with
     | .ok r => ∀ k2, (dlookup g k2).isSome = true → (dlookup r.2 k2).isSome = true
     | .error _ => True) := by
  cases cfg with
  | seq xs =>
      have hi := parseItems_keys strict reg env xs g
      rw [parseConfig]
      cases hx : parseItems strict reg env xs g with
      | error e => simp [hx]
      | ok p =>
          rw [hx] at hi
          simp only [] at hi ⊢
          exact hi
  | map es =>
      have he := parseEntries_keys strict reg env es g
      rw [parseConfig]
      cases hx : parseEntries strict reg env es g with
      | error e => simp [hx]
      | ok p =>
          rw [hx] at he
          simp only [] at he ⊢
          cases hpop : dpop p.1 "_name" with
          | mk onm rest =>
              cases onm with
              | none => simp only []; exact he
              | some nm =>
                  simp only []
                  by_cases ht : truthy nm = true
                  · rw [if_pos ht]
                    cases nm with
                    | str s =>
                        simp only []
                        by_cases hr : reg s = true
                        · rw [if_pos hr]; simp only []; exact he
                        · rw [if_neg hr]; simp
                    | null => simp
                    | int n => simp
                    | bool b2 => simp
                    | seq ys => simp
                    | map m2 => simp
                    | moduleInst nm2 args2 d2 => simp
                  · rw [if_neg ht]
                    exact he
  | null => simp only [parseConfig]; exact fun k2 h => h
  | int n => simp only [parseConfig]; exact fun k2 h => h
  | bool b2 => simp only [parseConfig]; exact fun k2 h => h
  | str s => simp only [parseConfig]; exact fun k2 h => h
  | moduleInst nm args d => simp only [parseConfig]; exact fun k2 h => h

theorem parseItems_keys (strict : Bool) (reg : String → Bool) (env : Dict)
    (xs : List Node) (g : Dict) :
    (match parseItems strict reg env xs g with
     | .ok r => ∀ k2, (dlookup g k2).isSome = true → (dlookup r.2 k2).isSome = true
     | .error _ => True) := by
  cases xs with
  | nil => rw [parseItems]; exact fun k2 h => h
  | cons x rest =>
      cases x with
      | str s =>
          rw [parseItems]
          by_cases hs : hasVarMarker s = true
          · rw [if_pos hs]
            cases hv : resolveVariable g env s with
            | error e => simp [hv]
            | ok v =>
                simp only []
                have hi := parseItems_keys strict reg env rest g
                cases hx : parseItems strict reg env rest g with
                | error e => simp [hx]
                | ok p =>
                    rw [hx] at hi
                    simp only [] at hi ⊢
                    exact hi
          · rw [if_neg hs]
            have hi := parseItems_keys strict reg env rest g
            cases hx : parseItems strict reg env rest g with
            | error e => simp [hx]
            | ok p =>
                rw [hx] at hi
                simp only [] at hi ⊢
                exact hi
      | map m =>
          rw [parseItems]
          have hpv := parseConfig_keys strict reg env (.map m) g
          cases hm : parseConfig strict reg env (.map m) g with
          | error e => simp [hm]
          | ok pv =>
              rw [hm] at hpv
              simp only [] at hpv ⊢
              have hi := parseItems_keys strict reg env rest pv.2
              cases hx : parseItems strict reg env rest pv.2 with
              | error e => simp [hx]
              | ok p =>
                  rw [hx] at hi
                  simp only [] at hi ⊢
                  exact fun k2 h => hi k2 (hpv k2 h)
      | null =>
          simp only [parseItems]
          have hi := parseItems_keys strict reg env rest g
          cases hx : parseItems strict reg env rest g with
          | error e => simp [hx]
          | ok p =>
              rw [hx] at hi
              simp only [] at hi ⊢
              exact hi
      | int n =>
          simp only [parseItems]
          have hi := parseItems_keys strict reg env rest g
          cases hx : parseItems strict reg env rest g with
          | error e => simp [hx]
          | ok p =>
              rw [hx] at hi
              simp only [] at hi ⊢
              exact hi
      | bool b2 =>
          simp only [parseItems]
          have hi := parseItems_keys strict reg env rest g
          cases hx : parseItems strict reg env rest g with
          | error e => simp [hx]
          | ok p =>
              rw [hx] at hi
              simp only [] at hi ⊢
              exact hi
      | seq ys =>
          simp only [parseItems]
          have hi := parseItems_keys strict reg env rest g
          cases hx : parseItems strict reg env rest g with
          | error e => simp [hx]
          | ok p =>
              rw [hx] at hi
              simp only [] at hi ⊢
              exact hi
      | moduleInst nm args d =>
          simp only [parseItems]
          have hi := parseItems_keys strict reg env rest g
          cases hx : parseItems strict reg env rest g with
          | error e => simp [hx]
          | ok p =>
              rw [hx] at hi
              simp only [] at hi ⊢
              exact hi

theorem parseEntries_keys (strict : Bool) (reg : String → Bool) (env : Dict)
    (es : List (String × Node)) (g : Dict) :
    (match parseEntries strict reg env es g with
     | .ok r => ∀ k2, (dlookup g k2).isSome = true → (dlookup r.2 k2).isSome = true
     | .error _ => True) := by
  rcases es with _ | ⟨⟨k, v⟩, rest⟩
  · rw [parseEntries]; exact fun k2 h => h
  · cases v with
    | str s =>
        rw [parseEntries]
        by_cases hs : hasVarMarker s = true
        · rw [if_pos hs]
          cases hv : resolveVariable g env s with
          | error e => simp [hv]
          | ok rv =>
              simp only []
              have hi := parseEntries_keys strict reg env rest g
              cases hx : parseEntries strict reg env rest g with
              | error e => simp [hx]
              | ok p =>
                  rw [hx] at hi
                  simp only [] at hi ⊢
                  exact hi
        · rw [if_neg hs]
          have hi := parseEntries_keys strict reg env rest g
          cases hx : parseEntries strict reg env rest g with
          | error e => simp [hx]
          | ok p =>
              rw [hx] at hi
              simp only [] at hi ⊢
              exact hi
    | seq ys =>
        rw [parseEntries]
        have hyp := parseItems_keys strict reg env ys g
        cases hy : parseItems strict reg env ys g with
        | error e => simp [hy]
        | ok yp =>
            rw [hy] at hyp
            simp only [] at hyp ⊢
            have hi := parseEntries_keys strict reg env rest yp.2
            cases hx : parseEntries strict reg env rest yp.2 with
            | error e => simp [hx]
            | ok p =>
                rw [hx] at hi
                simp only [] at hi ⊢
                exact fun k2 h => hi k2 (hyp k2 h)
    | map m =>
        rw [parseEntries]
        have hpv := parseConfig_keys strict reg env (.map m) g
        cases hm : parseConfig strict reg env (.map m) g with
        | error e => simp [hm]
        | ok pv =>
            rw [hm] at hpv
            simp only [] at hpv ⊢
            have hg3 : ∀ k2, (dlookup pv.2 k2).isSome = true →
                (dlookup (if k = "_var" then
                  match pv.1 with
                  | .map pm => mergeDict pv.2 pm true
                  | _ => pv.2
                 else pv.2) k2).isSome = true := by
              intro k2 h
              by_cases hk : k = "_var"
              · rw [if_pos hk]
                cases pv.1 with
                | map pm => exact dlookup_mergeDict_isSome pm pv.2 true k2 h
                | null => exact h
                | int n => exact h
                | bool b2 => exact h
                | str s2 => exact h
                | seq ys2 => exact h
                | moduleInst nm2 args2 d2 => exact h
              · rw [if_neg hk]; exact h
            have hi := parseEntries_keys strict reg env rest
              (if k = "_var" then
                match pv.1 with
                | .map pm => mergeDict pv.2 pm true
                | _ => pv.2
               else pv.2)
            cases hx : parseEntries strict reg env rest
              (if k = "_var" then
                match pv.1 with
                | .map pm => mergeDict pv.2 pm true
                | _ => pv.2
               else pv.2) with
            | error e => simp [hx]
            | ok p =>
                rw [hx] at hi
                simp only [] at hi ⊢
                exact fun k2 h => hi k2 (hg3 k2 (hpv k2 h))
    | null =>
        simp only [parseEntries]
        have hi := parseEntries_keys strict reg env rest g
        cases hx : parseEntries strict reg env rest g with
        | error e => simp [hx]
        | ok p =>
            rw [hx] at hi
            simp only [] at hi ⊢
            exact hi
    | int n =>
        simp only [parseEntries]
        have hi := parseEntries_keys strict reg env rest g
        cases hx : parseEntries strict reg env rest g with
        | error e => simp [hx]
        | ok p =>
            rw [hx] at hi
            simp only [] at hi ⊢
            exact hi
    | bool b2 =>
        simp only [parseEntries]
        have hi := parseEntries_keys strict reg env rest g
        cases hx : parseEntries strict reg env rest g with
        | error e => simp [hx]
        | ok p =>
            rw [hx] at hi
            simp only [] at hi ⊢
            exact hi
    | moduleInst nm args d =>
        simp only [parseEntries]
        have hi := parseEntries_keys strict reg env rest g
        cases hx : parseEntries strict reg env rest g with
        | error e => simp [hx]
        | ok p =>
            rw [hx] at hi
            simp only [] at hi ⊢
            exact hi

end

/-! ## Totality of the matcher away from the literal `None` annotation (C5) -/

mutual

/-- No occurrence of the literal `None` annotation anywhere in the shape. -/
def noneLitFree : Anno → Bool
  | .noneLit => false
  | .list a => optNoneLitFree a
  | .set a => optNoneLitFree a
  | .tuple a => optListNoneLitFree a
  | .dict a => optPairNoneLitFree a
  | .union a => optListNoneLitFree a
  | .callable a => optCallNoneLitFree a
  | _ => true

def optNoneLitFree : Option Anno → Bool
  | Option.none => true
  | Option.some a => noneLitFree a

def listNoneLitFree : List Anno → Bool
  | [] => true
  | a :: rest => noneLitFree a && listNoneLitFree rest

def optListNoneLitFree : Option (List Anno) → Bool
  | Option.none => true
  | Option.some l => listNoneLitFree l

def optPairNoneLitFree : Option (Anno × Anno) → Bool
  | Option.none => true
  | Option.some (a, b) => noneLitFree a && noneLitFree b

def optCallNoneLitFree : Option (List Anno × Anno) → Bool
  | Option.none => true
  | Option.some (ps, r) => listNoneLitFree ps && noneLitFree r

end

theorem anno_sizeOf_pos (a : Anno) : 0 < sizeOf a := by
  cases a <;> simp_arith

theorem listAnno_sizeOf_pos (l : List Anno) : 0 < sizeOf l := by
  cases l <;> simp_arith

/-- Bundled totality statement, proved by strong induction on the size of the
    annotation argument: away from the literal `None` annotation the matcher
    and its helper loops always return a boolean. -/
theorem matcherTotalBundle : ∀ n : Nat,
    (∀ (v : PyValue) (a : Anno), sizeOf a ≤ n → noneLitFree a = true →
        ∃ b, isAnnotationMatched v a = .ok b) ∧
    (∀ (xs : List PyValue) (a : Anno), sizeOf a ≤ n → noneLitFree a = true →
        ∃ b, matchAll xs a = .ok b) ∧
    (∀ (xs : List PyValue) (annos : List Anno), sizeOf annos ≤ n →
        listNoneLitFree annos = true → ∃ b, matchZip xs annos = .ok b) ∧
    (∀ (entries : List (PyValue × PyValue)) (ka va : Anno),
        sizeOf ka + sizeOf va ≤ n → noneLitFree ka = true → noneLitFree va = true →
        ∃ b, matchPairs entries ka va = .ok b) ∧
    (∀ (v : PyValue) (alts : List Anno), sizeOf alts ≤ n →
        listNoneLitFree alts = true → ∃ b, matchAny v alts = .ok b) := by
  intro n
  induction n with
  | zero =>
      refine ⟨?_, ?_, ?_, ?_, ?_⟩
      · intro v a hsz _
        exact absurd hsz (by have := anno_sizeOf_pos a; omega)
      · intro xs a hsz _
        exact absurd hsz (by have := anno_sizeOf_pos a; omega)
      · intro xs annos hsz _
        exact absurd hsz (by have := listAnno_sizeOf_pos annos; omega)
      · intro entries ka va hsz _ _
        exact absurd hsz (by have := anno_sizeOf_pos ka; have := anno_sizeOf_pos va; omega)
      · intro v alts hsz _
        exact absurd hsz (by have := listAnno_sizeOf_pos alts; omega)
  | succ n ih =>
      have P1 : ∀ (v : PyValue) (a : Anno), sizeOf a ≤ n + 1 → noneLitFree a = true →
          ∃ b, isAnnotationMatched v a = .ok b := by
        intro v a hsz hfree
        cases a with
        | noneLit => simp [noneLitFree] at hfree
        | any => cases v <;> simp only [isAnnotationMatched] <;> exact ⟨_, rfl⟩
        | exact t => cases v <;> simp only [isAnnotationMatched] <;> exact ⟨_, rfl⟩
        | iterable => cases v <;> simp only [isAnnotationMatched] <;> exact ⟨_, rfl⟩
        | iterator => cases v <;> simp only [isAnnotationMatched] <;> exact ⟨_, rfl⟩
        | callable args =>
            cases args with
            | none =>
                cases v <;> simp only [isAnnotationMatched, isCallable] <;> (repeat' split) <;>
                  exact ⟨_, rfl⟩
            | some p =>
                obtain ⟨params, ret⟩ := p
                cases v <;> simp only [isAnnotationMatched, isCallable] <;> (repeat' split) <;>
                  exact ⟨_, rfl⟩
        | list arg =>
            cases arg with
            | none => cases v <;> simp only [isAnnotationMatched] <;> exact ⟨_, rfl⟩
            | some a2 =>
                have h2 : noneLitFree a2 = true := by
                  simpa [noneLitFree, optNoneLitFree] using hfree
                have hsz2 : sizeOf a2 ≤ n := by
                  simp only [Anno.list.sizeOf_spec, Option.some.sizeOf_spec] at hsz
                  omega
                cases v
                case vlist xs => simp only [isAnnotationMatched]; exact ih.2.1 xs a2 hsz2 h2
                all_goals simp only [isAnnotationMatched] <;> exact ⟨_, rfl⟩
        | set arg =>
            cases arg with
            | none => cases v <;> simp only [isAnnotationMatched] <;> exact ⟨_, rfl⟩
            | some a2 =>
                have h2 : noneLitFree a2 = true := by
                  simpa [noneLitFree, optNoneLitFree] using hfree
                have hsz2 : sizeOf a2 ≤ n := by
                  simp only [Anno.set.sizeOf_spec, Option.some.sizeOf_spec] at hsz
                  omega
                cases v
                case vset xs => simp only [isAnnotationMatched]; exact ih.2.1 xs a2 hsz2 h2
                all_goals simp only [isAnnotationMatched] <;> exact ⟨_, rfl⟩
        | tuple args =>
            cases args with
            | none => cases v <;> simp only [isAnnotationMatched] <;> exact ⟨_, rfl⟩
            | some annos =>
                have h2 : listNoneLitFree annos = true := by
                  simpa [noneLitFree, optListNoneLitFree] using hfree
                have hsz2 : sizeOf annos ≤ n := by
                  simp only [Anno.tuple.sizeOf_spec, Option.some.sizeOf_spec] at hsz
                  omega
                cases v
                case vtuple xs =>
                    simp only [isAnnotationMatched]
                    by_cases hl : annos.length != xs.length
                    · rw [if_pos hl]; exact ⟨_, rfl⟩
                    · rw [if_neg hl]; exact ih.2.2.1 xs annos hsz2 h2
                all_goals simp only [isAnnotationMatched] <;> exact ⟨_, rfl⟩
        | dict args =>
            cases args with
            | none => cases v <;> simp only [isAnnotationMatched] <;> exact ⟨_, rfl⟩
            | some p =>
                obtain ⟨ka, va⟩ := p
                have h2 : noneLitFree ka = true ∧ noneLitFree va = true := by
                  simpa [noneLitFree, optPairNoneLitFree, Bool.and_eq_true] using hfree
                have hsz2 : sizeOf ka + sizeOf va ≤ n := by
                  simp only [Anno.dict.sizeOf_spec, Option.some.sizeOf_spec,
                    Prod.mk.sizeOf_spec] at hsz
                  omega
                cases v
                case vdict entries => simp only [isAnnotationMatched]; exact ih.2.2.2.1 entries ka va hsz2 h2.1 h2.2
                all_goals simp only [isAnnotationMatched] <;> exact ⟨_, rfl⟩
        | union args =>
            cases args with
            | none => cases v <;> simp only [isAnnotationMatched] <;> exact ⟨_, rfl⟩
            | some alts =>
                have h2 : listNoneLitFree alts = true := by
                  simpa [noneLitFree, optListNoneLitFree] using hfree
                have hsz2 : sizeOf alts ≤ n := by
                  simp only [Anno.union.sizeOf_spec, Option.some.sizeOf_spec] at hsz
                  omega
                cases v <;> simp only [isAnnotationMatched] <;>
                  exact ih.2.2.2.2 _ alts hsz2 h2
      have P2 : ∀ (xs : List PyValue) (a : Anno), sizeOf a ≤ n + 1 → noneLitFree a = true →
          ∃ b, matchAll xs a = .ok b := by
        intro xs a hsz hfree
        induction xs with
        | nil => exact ⟨true, by simp only [matchAll]⟩
        | cons x rest ihx =>
            obtain ⟨b, hb⟩ := P1 x a hsz hfree
            obtain ⟨b2, hb2⟩ := ihx
            cases b with
            | false => exact ⟨false, by rw [matchAll, hb]; simp⟩
            | true => exact ⟨b2, by rw [matchAll, hb]; simpa using hb2⟩
      have P3 : ∀ (xs : List PyValue) (annos : List Anno), sizeOf annos ≤ n + 1 →
          listNoneLitFree annos = true → ∃ b, matchZip xs annos = .ok b := by
        intro xs annos
        induction annos generalizing xs with
        | nil => intro _ _; exact ⟨true, by simp only [matchZip]⟩
        | cons a arest iha =>
            intro hsz hfree
            simp only [listNoneLitFree, Bool.and_eq_true] at hfree
            have hsza : sizeOf a ≤ n + 1 := by
              simp only [List.cons.sizeOf_spec] at hsz
              have := listAnno_sizeOf_pos arest
              omega
            have hszrest : sizeOf arest ≤ n + 1 := by
              simp only [List.cons.sizeOf_spec] at hsz
              have := anno_sizeOf_pos a
              omega
            cases xs with
            | nil => exact ⟨true, by simp only [matchZip]⟩
            | cons x rest =>
                obtain ⟨b, hb⟩ := P1 x a hsza hfree.1
                obtain ⟨b2, hb2⟩ := iha rest hszrest hfree.2
                cases b with
                | false => exact ⟨false, by rw [matchZip, hb]; simp⟩
                | true => exact ⟨b2, by rw [matchZip, hb]; simpa using hb2⟩
      have P4 : ∀ (entries : List (PyValue × PyValue)) (ka va : Anno),
          sizeOf ka + sizeOf va ≤ n + 1 → noneLitFree ka = true → noneLitFree va = true →
          ∃ b, matchPairs entries ka va = .ok b := by
        intro entries ka va hsz hka hva
        induction entries with
        | nil => exact ⟨true, by simp only [matchPairs]⟩
        | cons e rest ihe =>
            obtain ⟨k, v⟩ := e
            obtain ⟨bk, hbk⟩ := P1 k ka (by omega) hka
            obtain ⟨bv, hbv⟩ := P1 v va (by omega) hva
            obtain ⟨b2, hb2⟩ := ihe
            cases bk with
            | false => exact ⟨false, by rw [matchPairs, hbk]; simp⟩
            | true =>
                cases bv with
                | false => exact ⟨false, by rw [matchPairs, hbk]; simp [hbv]⟩
                | true => exact ⟨b2, by rw [matchPairs, hbk]; simp [hbv, hb2]⟩
      have P5 : ∀ (v : PyValue) (alts : List Anno), sizeOf alts ≤ n + 1 →
          listNoneLitFree alts = true → ∃ b, matchAny v alts = .ok b := by
        intro v alts
        induction alts with
        | nil => intro _ _; exact ⟨false, by simp only [matchAny]⟩
        | cons a rest iha =>
            intro hsz hfree
            simp only [listNoneLitFree, Bool.and_eq_true] at hfree
            have hsza : sizeOf a ≤ n + 1 := by
              simp only [List.cons.sizeOf_spec] at hsz
              have := listAnno_sizeOf_pos rest
              omega
            have hszrest : sizeOf rest ≤ n + 1 := by
              simp only [List.cons.sizeOf_spec] at hsz
              have := anno_sizeOf_pos a
              omega
            obtain ⟨b, hb⟩ := P1 v a hsza hfree.1
            obtain ⟨b2, hb2⟩ := iha hszrest hfree.2
            cases b with
            | false => exact ⟨b2, by rw [matchAny, hb]; simpa using hb2⟩
            | true => exact ⟨true, by rw [matchAny, hb]; simp⟩
      exact ⟨P1, P2, P3, P4, P5⟩

/-- Away from the literal `None` annotation the matcher is total. -/
theorem isAnnotationMatched_total (v : PyValue) (a : Anno) (h : noneLitFree a = true) :
    ∃ b, isAnnotationMatched v a = .ok b :=
  (matcherTotalBundle (sizeOf a)).1 v a le_rfl h

/-! ## Characterization of the container and union rules (C3) -/

theorem matchAll_ok_true_iff (xs : List PyValue) (a : Anno) :
    matchAll xs a = .ok true ↔ ∀ x ∈ xs, isAnnotationMatched x a = .ok true := by
  induction xs with
  | nil => simp [matchAll]
  | cons x rest ih =>
      rw [matchAll]
      cases hx : isAnnotationMatched x a with
      | error e => simp [hx]
      | ok b =>
          cases b with
          | true => simp [hx, List.forall_mem_cons, ih]
          | false => simp [hx, List.forall_mem_cons]

theorem matchZip_ok_true_iff (xs : List PyValue) (annos : List Anno) :
    matchZip xs annos = .ok true ↔
      ∀ p ∈ xs.zip annos, isAnnotationMatched p.1 p.2 = .ok true := by
  induction xs generalizing annos with
  | nil => simp [matchZip]
  | cons x rest ih =>
      cases annos with
      | nil => simp [matchZip]
      | cons a arest =>
          rw [matchZip]
          cases hx : isAnnotationMatched x a with
          | error e => simp [hx]
          | ok b =>
              cases b with
              | true => simp [hx, List.forall_mem_cons, ih]
              | false => simp [hx, List.forall_mem_cons]

theorem matchPairs_ok_true_iff (entries : List (PyValue × PyValue)) (ka va : Anno) :
    matchPairs entries ka va = .ok true ↔
      ∀ e ∈ entries, isAnnotationMatched e.1 ka = .ok true ∧
        isAnnotationMatched e.2 va = .ok true := by
  induction entries with
  | nil => simp [matchPairs]
  | cons e rest ih =>
      obtain ⟨k, v⟩ := e
      rw [matchPairs]
      cases hk : isAnnotationMatched k ka with
      | error e2 => simp [hk]
      | ok bk =>
          cases bk with
          | false => simp [hk]
          | true =>
              cases hv : isAnnotationMatched v va with
              | error e2 => simp [hk, hv]
              | ok bv =>
                  cases bv with
                  | true => simp [hk, hv, List.forall_mem_cons, ih]
                  | false => simp [hk, hv, List.forall_mem_cons]

theorem matchAny_ok_true_iff (v : PyValue) (alts : List Anno)
    (h : listNoneLitFree alts = true) :
    matchAny v alts = .ok true ↔ ∃ a ∈ alts, isAnnotationMatched v a = .ok true := by
  induction alts with
  | nil => simp [matchAny]
  | cons a rest ih =>
      simp only [listNoneLitFree, Bool.and_eq_true] at h
      rw [matchAny]
      obtain ⟨b, hb⟩ := isAnnotationMatched_total v a h.1
      rw [hb]
      cases b with
      | true => simp [hb]
      | false => simp [hb, ih h.2]

/-! ## The completion checker walk (C7) -/

mutual

theorem checkAll_spec (node : Node) :
    checkAllResolved node =
      (match firstDeferred node with
       | Option.some d => .error (unresolvedMsg d)
       | Option.none => .ok ()) := by
  cases node with
  | seq xs =>
      rw [checkAllResolved, firstDeferred]
      exact checkAllList_spec xs
  | map es =>
      rw [checkAllResolved, firstDeferred]
      exact checkAllEntries_spec es
  | null => rfl
  | int n => rfl
  | bool b => rfl
  | str s => rfl
  | moduleInst nm args d => cases d <;> rfl

theorem checkAllList_spec (xs : List Node) :
    checkAllList xs =
      (match firstDeferredList xs with
       | Option.some d => .error (unresolvedMsg d)
       | Option.none => .ok ()) := by
  cases xs with
  | nil => rfl
  | cons x rest =>
      rw [checkAllList, firstDeferredList, checkAll_spec x]
      cases firstDeferred x with
      | some d => rfl
      | none => simpa using checkAllList_spec rest

theorem checkAllEntries_spec (es : List (String × Node)) :
    checkAllEntries es =
      (match firstDeferredEntries es with
       | Option.some d => .error (unresolvedMsg d)
       | Option.none => .ok ()) := by
  rcases es with _ | ⟨⟨k, v⟩, rest⟩
  · rfl
  · rw [checkAllEntries, firstDeferredEntries, checkAll_spec v]
    cases firstDeferred v with
    | some d => rfl
    | none => simpa using checkAllEntries_spec rest

end

mutual

theorem firstDeferred_none_of_noFlag (node : Node) (h : noInstFlag true node = true) :
    firstDeferred node = Option.none := by
  cases node with
  | seq xs =>
      rw [firstDeferred]
      exact firstDeferredList_none_of_noFlag xs (by simpa [noInstFlag] using h)
  | map es =>
      rw [firstDeferred]
      exact firstDeferredEntries_none_of_noFlag es (by simpa [noInstFlag] using h)
  | null => rfl
  | int n => rfl
  | bool b => rfl
  | str s => rfl
  | moduleInst nm args d =>
      cases d with
      | false => rfl
      | true => simp [noInstFlag] at h

theorem firstDeferredList_none_of_noFlag (xs : List Node)
    (h : noInstFlagList true xs = true) : firstDeferredList xs = Option.none := by
  cases xs with
  | nil => rfl
  | cons x rest =>
      simp only [noInstFlagList, Bool.and_eq_true] at h
      rw [firstDeferredList, firstDeferred_none_of_noFlag x h.1]
      exact firstDeferredList_none_of_noFlag rest h.2

theorem firstDeferredEntries_none_of_noFlag (es : List (String × Node))
    (h : noInstFlagEntries true es = true) : firstDeferredEntries es = Option.none := by
  rcases es with _ | ⟨⟨k, v⟩, rest⟩
  · rfl
  · simp only [noInstFlagEntries, Bool.and_eq_true] at h
    rw [firstDeferredEntries, firstDeferred_none_of_noFlag v h.1]
    exact firstDeferredEntries_none_of_noFlag rest h.2

end

/-- A mapping entry holding a non-variable string survives the entry loop at
    the same key with the same value. -/
theorem parseEntries_preserves_str (strict : Bool) (reg : String → Bool) (env : Dict)
    (es : List (String × Node)) (g : Dict) (k : String) (sv : String)
    (hk : dlookup es k = Option.some (.str sv)) (hs : hasVarMarker sv = false) :
    (match parseEntries strict reg env es g with
     | .ok r => dlookup r.1 k = Option.some (.str sv)
     | .error _ => True) := by
  rcases es with _ | ⟨⟨k0, v⟩, rest⟩
  · simp [dlookup] at hk
  · by_cases hk0 : k0 = k
    · subst hk0
      simp [dlookup] at hk
      subst hk
      rw [parseEntries, if_neg (by simp [hs])]
      cases hx : parseEntries strict reg env rest g with
      | error e => simp
      | ok p => simp [dlookup]
    · have hrest : dlookup rest k = Option.some (.str sv) := by
        simpa [dlookup, hk0] using hk
      cases v with
      | str s =>
          rw [parseEntries]
          by_cases hss : hasVarMarker s = true
          · rw [if_pos hss]
            cases hv : resolveVariable g env s with
            | error e => simp
            | ok rv =>
                simp only []
                have hi := parseEntries_preserves_str strict reg env rest g k sv hrest hs
                cases hx : parseEntries strict reg env rest g with
                | error e => simp
                | ok p =>
                    rw [hx] at hi
                    simp only [] at hi ⊢
                    simpa [dlookup, hk0] using hi
          · rw [if_neg hss]
            have hi := parseEntries_preserves_str strict reg env rest g k sv hrest hs
            cases hx : parseEntries strict reg env rest g with
            | error e => simp
            | ok p =>
                rw [hx] at hi
                simp only [] at hi ⊢
                simpa [dlookup, hk0] using hi
      | seq ys =>
          rw [parseEntries]
          cases hy : parseItems strict reg env ys g with
          | error e => simp
          | ok yp =>
              simp only []
              have hi := parseEntries_preserves_str strict reg env rest yp.2 k sv hrest hs
              cases hx : parseEntries strict reg env rest yp.2 with
              | error e => simp
              | ok p =>
                  rw [hx] at hi
                  simp only [] at hi ⊢
                  simpa [dlookup, hk0] using hi
      | map m =>
          rw [parseEntries]
          cases hm : parseConfig strict reg env (.map m) g with
          | error e => simp
          | ok pv =>
              simp only []
              have hi := parseEntries_preserves_str strict reg env rest
                (if k0 = "_var" then
                  match pv.1 with
                  | .map pm => mergeDict pv.2 pm true
                  | _ => pv.2
                 else pv.2) k sv hrest hs
              cases hx : parseEntries strict reg env rest
                (if k0 = "_var" then
                  match pv.1 with
                  | .map pm => mergeDict pv.2 pm true
                  | _ => pv.2
                 else pv.2) with
              | error e => simp [hx]
              | ok p =>
                  rw [hx] at hi
                  simp only [] at hi ⊢
                  simpa [dlookup, hk0] using hi
      | null =>
          simp only [parseEntries]
          have hi := parseEntries_preserves_str strict reg env rest g k sv hrest hs
          cases hx : parseEntries strict reg env rest g with
          | error e => simp
          | ok p =>
              rw [hx] at hi
              simp only [] at hi ⊢
              simpa [dlookup, hk0] using hi
      | int n =>
          simp only [parseEntries]
          have hi := parseEntries_preserves_str strict reg env rest g k sv hrest hs
          cases hx : parseEntries strict reg env rest g with
          | error e => simp
          | ok p =>
              rw [hx] at hi
              simp only [] at hi ⊢
              simpa [dlookup, hk0] using hi
      | bool b2 =>
          simp only [parseEntries]
          have hi := parseEntries_preserves_str strict reg env rest g k sv hrest hs
          cases hx : parseEntries strict reg env rest g with
          | error e => simp
          | ok p =>
              rw [hx] at hi
              simp only [] at hi ⊢
              simpa [dlookup, hk0] using hi
      | moduleInst nm args d =>
          simp only [parseEntries]
          have hi := parseEntries_preserves_str strict reg env rest g k sv hrest hs
          cases hx : parseEntries strict reg env rest g with
          | error e => simp
          | ok p =>
              rw [hx] at hi
              simp only [] at hi ⊢
              simpa [dlookup, hk0] using hi

/-! ## Claim theorems -/

/-- C1: variable resolution returns the global tier's value whenever the
    stripped key is in the global tier, the env tier's value when the key is
    only in the env tier, and raises the variable-resolution error carrying
    the reference (hence the missing key) when absent from both; resolving
    `{"x": "@missing"}` with empty tiers raises it for `@missing`, whose
    stripped key is `missing`. -/
theorem C1_variable_resolution (g env : Dict) (name : String) :
    (∀ v, dlookup g (name.drop 1) = Option.some v →
        resolveVariable g env name = .ok v) ∧
    (dlookup g (name.drop 1) = Option.none →
      ∀ v, dlookup env (name.drop 1) = Option.some v →
        resolveVariable g env name = .ok v) ∧
    (dlookup g (name.drop 1) = Option.none → dlookup env (name.drop 1) = Option.none →
      resolveVariable g env name = .error (.varNotFound name)) ∧
    (∀ (strict : Bool) (reg : String → Bool),
        parseConfig strict reg [] (.map [("x", .str "@missing")]) [] =
          .error (.varNotFound "@missing")) ∧
    "@missing".drop 1 = "missing" := by
  refine ⟨?_, ?_, ?_, ?_, by decide⟩
  · intro v hv
    simp [resolveVariable, hv]
  · intro hg v hv
    simp [resolveVariable, hg, hv]
  · intro hg he
    simp [resolveVariable, hg, he]
  · intro strict reg
    rw [parseConfig, parseEntries]
    have hm : hasVarMarker "@missing" = true := by decide
    rw [if_pos hm]
    have hr : resolveVariable [] [] "@missing" = .error (.varNotFound "@missing") := by
      simp [resolveVariable, dlookup]
    rw [hr]

/-- C1 witness: the three resolution outcomes at concrete inputs. -/
theorem C1_variable_resolution_witness :
    resolveVariable [("k", Node.int 1)] [("k", Node.int 2)] "@k" = .ok (.int 1) ∧
    resolveVariable [] [("k", Node.int 2)] "@k" = .ok (.int 2) ∧
    resolveVariable [] [] "@missing" = .error (.varNotFound "@missing") := by
  refine ⟨?_, ?_, ?_⟩
  · exact (C1_variable_resolution [("k", Node.int 1)] [("k", Node.int 2)] "@k").1
      (.int 1) (by simp [dlookup] <;> decide)
  · exact (C1_variable_resolution [] [("k", Node.int 2)] "@k").2.1 (by simp [dlookup])
      (.int 2) (by simp [dlookup] <;> decide)
  · exact (C1_variable_resolution [] [] "@missing").2.2.1 (by simp [dlookup])
      (by simp [dlookup])

/-- C9: a substituted Variable Reference places the looked-up value at the
    substitution site exactly as-is — even a Mapping that itself contains
    `_name` — with no re-resolution and no module instantiation there, in
    both the mapping-value and sequence-element positions. -/
theorem C9_substitution_is_final (strict : Bool) (reg : String → Bool) (env g : Dict)
    (k s : String) (v : Node)
    (hk : (k = "_name") = False) (hs : hasVarMarker s = true)
    (hv : dlookup g (s.drop 1) = Option.some v) :
    parseConfig strict reg env (.map [(k, .str s)]) g = .ok (.map [(k, v)], g) ∧
    parseConfig strict reg env (.seq [.str s]) g = .ok (.seq [v], g) := by
  have hr : resolveVariable g env s = .ok v := by
    simp [resolveVariable, hv]
  constructor
  · rw [parseConfig, parseEntries, if_pos hs, hr]
    simp only [parseEntries]
    have hpop : dpop [(k, v)] "_name" = (Option.none, [(k, v)]) := by
      apply dpop_of_absent
      simp [dlookup, hk]
    rw [hpop]
  · rw [parseConfig, parseItems, if_pos hs, hr]
    simp only [parseItems]

/-- C9 witness: substituting a global whose value is a `_name`-bearing
    mapping leaves that mapping uninstantiated at the substitution site. -/
theorem C9_substitution_is_final_witness :
    parseConfig true (fun _ => true) []
        (.map [("x", .str "@v")]) [("v", .map [("_name", .str "m")])] =
      .ok (.map [("x", .map [("_name", .str "m")])], [("v", .map [("_name", .str "m")])]) := by
  exact (C9_substitution_is_final true (fun _ => true) [] [("v", .map [("_name", .str "m")])]
    "x" "@v" (.map [("_name", .str "m")]) (by simp) (by decide)
    (by simp [dlookup] <;> decide)).1

/-- C5 counterexample: matching a non-null value against the literal `None`
    annotation falls through every branch of `is_annotation_matched` and
    raises `NotImplementedError`, contradicting "must not raise". -/
theorem C5_noneshape_raises :
    isAnnotationMatched (.int 3) .noneLit = .error () := by
  simp [isAnnotationMatched]

/-- C5 (amended): the matcher returns a boolean and never raises for every
    shape containing no occurrence of the literal `None` annotation; for the
    literal `None` shape it returns true on the null value and raises on any
    non-null value. -/
theorem C5_matcher_totality :
    (∀ (v : PyValue) (a : Anno), noneLitFree a = true →
        ∃ b, isAnnotationMatched v a = .ok b) ∧
    isAnnotationMatched PyValue.none .noneLit = .ok true ∧
    (∀ v : PyValue, (v = PyValue.none) = False →
        isAnnotationMatched v .noneLit = .error ()) := by
  refine ⟨isAnnotationMatched_total, by simp [isAnnotationMatched], ?_⟩
  intro v hv
  cases v with
  | none => simp at hv
  | int n => simp [isAnnotationMatched]
  | bool b => simp [isAnnotationMatched]
  | str s2 => simp [isAnnotationMatched]
  | float => simp [isAnnotationMatched]
  | vlist xs => simp [isAnnotationMatched]
  | vset xs => simp [isAnnotationMatched]
  | vtuple xs => simp [isAnnotationMatched]
  | vdict entries => simp [isAnnotationMatched]
  | func ps r => simp [isAnnotationMatched]
  | nestModule sig r bound => simp [isAnnotationMatched]

/-- C5 witness: totality applied at a concrete value and `None`-free shape,
    and the raise case at a concrete non-null value. -/
theorem C5_matcher_totality_witness :
    (∃ b, isAnnotationMatched (.int 3) (.list (Option.some (.exact .tInt))) = .ok b) ∧
    isAnnotationMatched (.str "x") .noneLit = .error () := by
  refine ⟨C5_matcher_totality.1 (.int 3) (.list (Option.some (.exact .tInt))) ?_,
    C5_matcher_totality.2.2 (.str "x") (by simp)⟩
  simp [noneLitFree, optNoneLitFree]

/-- C6 counterexample: on a collision of non-mapping values the union-merge
    keeps the difference value, not the source value as the claim states. -/
theorem C6_collision_diff_wins :
    mergeDict [("a", Node.int 1)] [("a", Node.int 2)] true = [("a", Node.int 2)] ∧
    (Node.int 2 = Node.int 1) = False := by
  constructor
  · rw [mergeDict, mergeStep]
    simp [dlookup, dinsert, mergeDict]
  · simp

/-- C6 (amended): the union-merge used by the sweep driver merges nested
    mappings recursively (nested merges always behave as union merges, since
    the recursive call passes the path list into the `union` slot), adds
    difference keys absent from the source when `union` is set, and on any
    other collision the difference value wins; keys untouched by the
    difference keep their source value, and the result is the merged source. -/
theorem C6_merge_union_semantics (src diff : Dict)
    (hd : (diff.map Prod.fst).Nodup) :
    (∀ k, dlookup diff k = Option.none →
        dlookup (mergeDict src diff true) k = dlookup src k) ∧
    (∀ k dv, dlookup diff k = Option.some dv → dlookup src k = Option.none →
        dlookup (mergeDict src diff true) k = Option.some dv) ∧
    (∀ k sm dm, dlookup diff k = Option.some (.map dm) →
        dlookup src k = Option.some (.map sm) →
        dlookup (mergeDict src diff true) k =
          Option.some (.map (mergeDict sm dm true))) ∧
    (∀ k sv dv, dlookup diff k = Option.some dv → dlookup src k = Option.some sv →
        ((∃ sm dm, sv = Node.map sm ∧ dv = Node.map dm) = False) →
        dlookup (mergeDict src diff true) k = Option.some dv) := by
  refine ⟨?_, ?_, ?_, ?_⟩
  · intro k hk
    rw [dlookup_mergeDict diff hd src true k, mergedValueAt, hk]
  · intro k dv hk hsrc
    rw [dlookup_mergeDict diff hd src true k, mergedValueAt, hk, hsrc]
    cases dv <;> rfl
  · intro k sm dm hk hsrc
    rw [dlookup_mergeDict diff hd src true k, mergedValueAt, hk, hsrc]
  · intro k sv dv hk hsrc hnot
    rw [dlookup_mergeDict diff hd src true k, mergedValueAt, hk, hsrc]
    cases sv <;> cases dv <;> first
      | rfl
      | (exfalso; rw [eq_iff_iff] at hnot; exact hnot.mp ⟨_, _, rfl, rfl⟩)

/-- C6 witness: the four merge behaviors at concrete inputs. -/
theorem C6_merge_union_semantics_witness :
    dlookup (mergeDict [("keep", Node.int 5), ("a", Node.int 1),
        ("m", Node.map [("x", Node.int 1)])]
      [("a", Node.int 2), ("new", Node.int 3),
        ("m", Node.map [("y", Node.int 4)])] true) "keep" = Option.some (Node.int 5) ∧
    dlookup (mergeDict [("keep", Node.int 5), ("a", Node.int 1),
        ("m", Node.map [("x", Node.int 1)])]
      [("a", Node.int 2), ("new", Node.int 3),
        ("m", Node.map [("y", Node.int 4)])] true) "new" = Option.some (Node.int 3) ∧
    dlookup (mergeDict [("keep", Node.int 5), ("a", Node.int 1),
        ("m", Node.map [("x", Node.int 1)])]
      [("a", Node.int 2), ("new", Node.int 3),
        ("m", Node.map [("y", Node.int 4)])] true) "m" =
      Option.some (.map (mergeDict [("x", Node.int 1)] [("y", Node.int 4)] true)) ∧
    dlookup (mergeDict [("keep", Node.int 5), ("a", Node.int 1),
        ("m", Node.map [("x", Node.int 1)])]
      [("a", Node.int 2), ("new", Node.int 3),
        ("m", Node.map [("y", Node.int 4)])] true) "a" = Option.some (Node.int 2) := by
  have h := C6_merge_union_semantics
    [("keep", Node.int 5), ("a", Node.int 1), ("m", Node.map [("x", Node.int 1)])]
    [("a", Node.int 2), ("new", Node.int 3), ("m", Node.map [("y", Node.int 4)])]
    (by decide)
  refine ⟨h.1 "keep" (by simp [dlookup]), h.2.1 "new" (Node.int 3) (by simp [dlookup])
    (by simp [dlookup]), h.2.2.1 "m" [("x", Node.int 1)] [("y", Node.int 4)]
    (by simp [dlookup]) (by simp [dlookup]), h.2.2.2 "a" (Node.int 1) (Node.int 2)
    (by simp [dlookup]) (by simp [dlookup]) (by simp)⟩

/-- C3: the container and union rules of the structural matcher — `List`/`Set`
    match iff the value has the matching container kind and every member
    matches the element shape (always, when the element shape is unset);
    `Tuple` matches iff a tuple of the same arity matches positionally;
    `Dict` matches iff a mapping whose every entry's key and value match
    (vacuously for an empty mapping); `Union` matches iff at least one
    alternative matches — plus the four concrete facts of the claim. -/
theorem C3_container_union_rules :
    (∀ (v : PyValue) (elem : Anno),
        isAnnotationMatched v (.list (Option.some elem)) = .ok true ↔
          ∃ xs, v = .vlist xs ∧ ∀ x ∈ xs, isAnnotationMatched x elem = .ok true) ∧
    (∀ v : PyValue, isAnnotationMatched v (.list Option.none) = .ok true ↔
        ∃ xs, v = .vlist xs) ∧
    (∀ (v : PyValue) (elem : Anno),
        isAnnotationMatched v (.set (Option.some elem)) = .ok true ↔
          ∃ xs, v = .vset xs ∧ ∀ x ∈ xs, isAnnotationMatched x elem = .ok true) ∧
    (∀ v : PyValue, isAnnotationMatched v (.set Option.none) = .ok true ↔
        ∃ xs, v = .vset xs) ∧
    (∀ (v : PyValue) (annos : List Anno),
        isAnnotationMatched v (.tuple (Option.some annos)) = .ok true ↔
          ∃ xs, v = .vtuple xs ∧ xs.length = annos.length ∧
            ∀ p ∈ xs.zip annos, isAnnotationMatched p.1 p.2 = .ok true) ∧
    (∀ (v : PyValue) (ka va : Anno),
        isAnnotationMatched v (.dict (Option.some (ka, va))) = .ok true ↔
          ∃ entries, v = .vdict entries ∧ ∀ e ∈ entries,
            isAnnotationMatched e.1 ka = .ok true ∧
            isAnnotationMatched e.2 va = .ok true) ∧
    (∀ (v : PyValue) (alts : List Anno), listNoneLitFree alts = true →
        (isAnnotationMatched v (.union (Option.some alts)) = .ok true ↔
          ∃ a ∈ alts, isAnnotationMatched v a = .ok true)) ∧
    isAnnotationMatched (.vlist [.int 1, .int 2, .int 3])
      (.list (Option.some (.exact .tInt))) = .ok true ∧
    isAnnotationMatched (.vlist [.int 1, .str "a"])
      (.list (Option.some (.exact .tInt))) = .ok false ∧
    isAnnotationMatched (.vdict [])
      (.dict (Option.some (.exact .tStr, .exact .tInt))) = .ok true ∧
    isAnnotationMatched (.int 3)
      (.union (Option.some [.exact .tInt, .exact .tStr])) = .ok true := by
  refine ⟨?_, ?_, ?_, ?_, ?_, ?_, ?_, ?_, ?_, ?_, ?_⟩
  · intro v elem
    cases v <;> simp [isAnnotationMatched, matchAll_ok_true_iff]
  · intro v
    cases v <;> simp [isAnnotationMatched]
  · intro v elem
    cases v <;> simp [isAnnotationMatched, matchAll_ok_true_iff]
  · intro v
    cases v <;> simp [isAnnotationMatched]
  · intro v annos
    cases v with
    | vtuple xs =>
        simp only [isAnnotationMatched]
        by_cases hl : annos.length = xs.length
        · rw [if_neg (by simp [hl])]
          simp [matchZip_ok_true_iff, hl]
        · rw [if_pos (by simpa using hl)]
          have hlf : ((Except.ok false : Except Unit Bool) = .ok true) = False := by simp
          rw [hlf, false_iff]
          rintro ⟨xs2, hx2, hlen, _⟩
          cases hx2
          exact hl hlen.symm
    | none => simp [isAnnotationMatched]
    | int n => simp [isAnnotationMatched]
    | bool b => simp [isAnnotationMatched]
    | str s2 => simp [isAnnotationMatched]
    | float => simp [isAnnotationMatched]
    | vlist xs => simp [isAnnotationMatched]
    | vset xs => simp [isAnnotationMatched]
    | vdict entries => simp [isAnnotationMatched]
    | func ps r => simp [isAnnotationMatched]
    | nestModule sig r bound => simp [isAnnotationMatched]
  · intro v ka va
    cases v <;> simp [isAnnotationMatched, matchPairs_ok_true_iff]
  · intro v alts h
    cases v <;> simp [isAnnotationMatched, matchAny_ok_true_iff _ _ h]
  · simp only [isAnnotationMatched, matchAll]; rfl
  · simp only [isAnnotationMatched, matchAll]; rfl
  · simp only [isAnnotationMatched, matchPairs]
  · simp only [isAnnotationMatched, matchAny]; rfl

/-- C3 witness: the union rule applied at the claim's concrete input. -/
theorem C3_container_union_rules_witness :
    isAnnotationMatched (.int 3)
        (.union (Option.some [.exact .tInt, .exact .tStr])) = .ok true ↔
      ∃ a ∈ [Anno.exact .tInt, Anno.exact .tStr],
        isAnnotationMatched (.int 3) a = .ok true := by
  exact C3_container_union_rules.2.2.2.2.2.2.1 (.int 3) [.exact .tInt, .exact .tStr]
    (by simp [listNoneLitFree, noneLitFree])

/-- `annSlotEq` holds iff the parameter slot carries exactly that
    annotation. -/
theorem annSlotEq_iff (x : Option Anno) (y : Anno) :
    annSlotEq x y = true ↔ x = Option.some y := by
  cases x <;> simp [annSlotEq, annoBEq_iff]

/-- The source's return-type clause, propositionally. -/
theorem retClauseOk_iff (v : PyValue) (ret : Anno) :
    retClauseOk v ret = true ↔
      (ret = .any ∨ ret = .exact .tObject ∨ declaredRet v = Option.some ret ∨
       (declaredRet v = Option.some .noneLit ∧ ret = .exact .tNoneType)) := by
  simp [retClauseOk, Bool.or_eq_true, Bool.and_eq_true, annoBEq_iff, optAnnoBEq_iff,
    annSlotEq_iff, or_assoc]

/-- C4 counterexample: a zero-parameter callable declared to return `int`
    matches `Callable[[], object]` (the claim's return rule says it must
    not), and a zero-parameter callable with no return annotation fails to
    match `Callable[[], None]` (the claim's "return type unset and ret is
    None" rule says it must). -/
theorem C4_return_rule_divergence :
    isAnnotationMatched (.func [] (Option.some (.exact .tInt)))
        (.callable (Option.some ([], .exact .tObject))) = .ok true ∧
    ((Anno.exact .tObject = Anno.any) = False ∧
     (Anno.exact .tObject = Anno.exact .tInt) = False) ∧
    isAnnotationMatched (.func [] Option.none)
        (.callable (Option.some ([], .exact .tNoneType))) = .ok false := by
  refine ⟨?_, ⟨by simp, by simp⟩, ?_⟩
  · simp [isAnnotationMatched, isCallable, effectiveAnnos, retClauseOk, annSlotEq,
      declaredRet, annoBEq, optAnnoBEq]
  · simp [isAnnotationMatched, isCallable, effectiveAnnos, retClauseOk, annSlotEq,
      declaredRet, annoBEq, optAnnoBEq]

/-- C4 (amended): a value matches `Callable(params..., ret)` iff it is
    invocable, its effective parameter list (for a deferred module instance:
    the declared signature minus bound parameters and minus parameters with
    defaults; for an ordinary callable: the full signature) equals `params`
    in arity and per-position annotation equality, and the return type
    satisfies: `ret` is `Any` or `object`, or `ret` equals the declared
    return annotation, or the declared return annotation is the literal
    `None` (a `-> None` annotation) and `ret` is `NoneType`. -/
theorem C4_callable_rule (v : PyValue) (params : List Anno) (ret : Anno) :
    isAnnotationMatched v (.callable (Option.some (params, ret))) = .ok true ↔
      (isCallable v = true ∧ (effectiveAnnos v).length = params.length ∧
       (∀ p ∈ (effectiveAnnos v).zip params, p.1 = Option.some p.2) ∧
       (ret = .any ∨ ret = .exact .tObject ∨ declaredRet v = Option.some ret ∨
        (declaredRet v = Option.some .noneLit ∧ ret = .exact .tNoneType))) := by
  cases v with
  | func ps r =>
      simp only [isAnnotationMatched, isCallable]
      by_cases hlen : (effectiveAnnos (PyValue.func ps r)).length = params.length
      · simp [hlen, List.all_eq_true, annSlotEq_iff, retClauseOk_iff]
      · simp [hlen]
  | nestModule sig r bound =>
      simp only [isAnnotationMatched, isCallable]
      by_cases hlen : (effectiveAnnos (PyValue.nestModule sig r bound)).length = params.length
      · simp [hlen, List.all_eq_true, annSlotEq_iff, retClauseOk_iff]
      · simp [hlen]
  | none => simp [isAnnotationMatched, isCallable]
  | int n => simp [isAnnotationMatched, isCallable]
  | bool b => simp [isAnnotationMatched, isCallable]
  | str s2 => simp [isAnnotationMatched, isCallable]
  | float => simp [isAnnotationMatched, isCallable]
  | vlist xs => simp [isAnnotationMatched, isCallable]
  | vset xs => simp [isAnnotationMatched, isCallable]
  | vtuple xs => simp [isAnnotationMatched, isCallable]
  | vdict entries => simp [isAnnotationMatched, isCallable]

/-- C7: the Completion Checker walks Mappings and Sequences recursively,
    raising the unresolved-node error naming (via the indented textual form)
    the first Deferred Module Instance its walk encounters, and returning
    successfully on any graph containing no Deferred Module Instance. -/
theorem C7_completion_checker :
    (∀ node : Node, noInstFlag true node = true → checkAllResolved node = .ok ()) ∧
    (∀ (node d : Node), firstDeferred node = Option.some d →
        checkAllResolved node =
          .error ("Unresolved Nest module found in the result.\n" ++
            indentText (renderNode d) 4)) ∧
    (∀ node : Node, firstDeferred node = Option.none → checkAllResolved node = .ok ()) := by
  refine ⟨?_, ?_, ?_⟩
  · intro node h
    rw [checkAll_spec node, firstDeferred_none_of_noFlag node h]
  · intro node d h
    rw [checkAll_spec node, h]
    rfl
  · intro node h
    rw [checkAll_spec node, h]

/-- C7 witness: a graph holding one deferred instance fails with the message
    naming it; a fully realized graph passes. -/
theorem C7_completion_checker_witness :
    checkAllResolved (.map [("k", .moduleInst "m" [] true)]) =
      .error ("Unresolved Nest module found in the result.\n" ++
        indentText (renderNode (.moduleInst "m" [] true)) 4) ∧
    checkAllResolved (.map [("k", .moduleInst "m" [] false), ("l", .seq [.int 1])]) =
      .ok () := by
  constructor
  · exact C7_completion_checker.2.1 (.map [("k", .moduleInst "m" [] true)])
      (.moduleInst "m" [] true)
      (by simp [firstDeferred, firstDeferredEntries, isNestModule])
  · exact C7_completion_checker.1 (.map [("k", .moduleInst "m" [] false), ("l", .seq [.int 1])])
      (by simp [noInstFlag, noInstFlagEntries, noInstFlagList])

/-- C8: a document containing no `_name` keys and no variable references
    resolves, under any scope and either strictness, to a graph equal to the
    original document. -/
theorem C8_identity_modulo_substitution (strict : Bool) (reg : String → Bool)
    (env : Dict) (cfg : Node) (g : Dict) (h : cleanDoc cfg = true) :
    ∃ g2, parseConfig strict reg env cfg g = .ok (cfg, g2) :=
  parseConfig_clean_id strict reg env cfg g h

/-- C8 witness: identity resolution of a concrete clean document. -/
theorem C8_identity_modulo_substitution_witness :
    ∃ g2, parseConfig true (fun _ => false) [("e", Node.int 9)]
        (.map [("a", .int 1), ("b", .seq [.str "x", .int 2]),
               ("c", .map [("d", .null)])]) [] =
      .ok (.map [("a", .int 1), ("b", .seq [.str "x", .int 2]),
                 ("c", .map [("d", .null)])], g2) := by
  exact C8_identity_modulo_substitution true (fun _ => false) [("e", Node.int 9)]
    (.map [("a", .int 1), ("b", .seq [.str "x", .int 2]), ("c", .map [("d", .null)])]) []
    (by simp [cleanDoc, cleanEntries, cleanList, hasVarMarker])

/-- C2: in strict mode every module reference is instantiated eagerly, so a
    successful resolve of a document (no deferred instances in the document
    or the scopes) yields a graph with zero Deferred Module Instances; in
    non-strict mode a top-level Module Reference Node (a mapping with a
    truthy, non-variable, registered `_name`) resolves to a Deferred Module
    Instance, and non-strict resolution never creates an eagerly realized
    instance. -/
theorem C2_strict_vs_lazy :
    (∀ (reg : String → Bool) (env : Dict) (cfg : Node) (g : Dict) (r : Node) (g2 : Dict),
        noInstFlag true cfg = true → noInstFlagEntries true env = true →
        noInstFlagEntries true g = true →
        parseConfig true reg env cfg g = .ok (r, g2) →
        noInstFlag true r = true) ∧
    (∀ (reg : String → Bool) (env : Dict) (es : List (String × Node)) (g : Dict)
        (r : Node) (g2 : Dict) (s : String),
        dlookup es "_name" = Option.some (.str s) → hasVarMarker s = false →
        (s = "") = False → reg s = true →
        parseConfig false reg env (.map es) g = .ok (r, g2) →
        ∃ args, r = .moduleInst s args true) ∧
    (∀ (reg : String → Bool) (env : Dict) (cfg : Node) (g : Dict) (r : Node) (g2 : Dict),
        noInstFlag false cfg = true → noInstFlagEntries false env = true →
        noInstFlagEntries false g = true →
        parseConfig false reg env cfg g = .ok (r, g2) →
        noInstFlag false r = true) := by
  refine ⟨?_, ?_, ?_⟩
  · intro reg env cfg g r g2 hc henv hg hok
    have h := parseConfig_noFlag true reg env cfg g hc henv hg
    rw [hok] at h
    exact h.1
  · intro reg env es g r g2 s hname hsvar hne hreg hok
    rw [parseConfig] at hok
    cases hx : parseEntries false reg env es g with
    | error e => rw [hx] at hok; cases hok
    | ok p =>
        have hp := parseEntries_preserves_str false reg env es g "_name" s hname hsvar
        rw [hx] at hp hok
        try simp only [] at hp
        try simp only [] at hok
        have hfst : (dpop p.1 "_name").1 = Option.some (.str s) := by
          rw [dpop_fst, hp]
        cases hpop : dpop p.1 "_name" with
        | mk onm rest =>
            rw [hpop] at hfst hok
            try simp only [] at hfst
            subst hfst
            try simp only [] at hok
            rw [if_pos (by simp [truthy, hne])] at hok
            try simp only [] at hok
            rw [if_pos hreg] at hok
            cases hok
            exact ⟨rest, rfl⟩
  · intro reg env cfg g r g2 hc henv hg hok
    have h := parseConfig_noFlag false reg env cfg g hc henv hg
    rw [hok] at h
    exact h.1

/-- C2 witness: the same one-module document resolved strictly yields a
    realized graph with zero deferred instances; resolved lazily it yields a
    Deferred Module Instance. -/
theorem C2_strict_vs_lazy_witness :
    (∃ r g2, parseConfig true (fun _ => true) []
        (.map [("_name", .str "m"), ("p", .int 1)]) [] = .ok (r, g2) ∧
      noInstFlag true r = true) ∧
    (∃ r g2 args, parseConfig false (fun _ => true) []
        (.map [("_name", .str "m"), ("p", .int 1)]) [] = .ok (r, g2) ∧
      r = .moduleInst "m" args true) := by
  constructor
  · have hpar : parseConfig true (fun _ => true) []
        (.map [("_name", .str "m"), ("p", .int 1)]) [] =
        .ok (.moduleInst "m" [("p", .int 1)] false, []) := by
      rw [parseConfig, parseEntries, if_neg (by decide)]
      simp only [parseEntries]
      rw [dpop]
      simp [truthy, instantiateModule]
    refine ⟨_, _, hpar, ?_⟩
    exact C2_strict_vs_lazy.1 (fun _ => true) [] (.map [("_name", .str "m"), ("p", .int 1)])
      [] _ _ (by simp [noInstFlag, noInstFlagEntries]) rfl rfl hpar
  · have hpar : parseConfig false (fun _ => true) []
        (.map [("_name", .str "m"), ("p", .int 1)]) [] =
        .ok (.moduleInst "m" [("p", .int 1)] true, []) := by
      rw [parseConfig, parseEntries, if_neg (by decide)]
      simp only [parseEntries]
      rw [dpop]
      simp [truthy, instantiateModule]
    obtain ⟨args, hargs⟩ := C2_strict_vs_lazy.2.1 (fun _ => true) []
      [("_name", .str "m"), ("p", .int 1)] [] _ _ "m" (by simp [dlookup]) (by decide)
      (by simp) rfl hpar
    exact ⟨_, _, args, hpar, hargs⟩

/-- Every scope handed to a later iteration contains all keys of the scope
    the recursion started from. -/
theorem sweepScopes_start_mono (strict : Bool) (reg : String → Bool) (env : Dict)
    (config : Node) : ∀ (ps : List Dict) (g : Dict),
    ∀ y ∈ sweepScopes strict reg env config ps g,
      ∀ k, (dlookup g k).isSome = true → (dlookup y.1 k).isSome = true := by
  intro ps
  induction ps with
  | nil => simp [sweepScopes]
  | cons p rest ih =>
      intro g y hy k hk
      rw [sweepScopes] at hy
      cases hp : parseConfig strict reg env config (mergeDict g p true) with
      | error e =>
          rw [hp] at hy
          simp only [List.mem_singleton] at hy
          subst hy
          exact dlookup_mergeDict_isSome p g true k hk
      | ok r =>
          rw [hp] at hy
          simp only [List.mem_cons] at hy
          cases hy with
          | inl hy =>
              subst hy
              exact dlookup_mergeDict_isSome p g true k hk
          | inr hy =>
              have hkeys := parseConfig_keys strict reg env config (mergeDict g p true)
              rw [hp] at hkeys
              simp only [] at hkeys
              exact ih r.2 y hy k (hkeys k (dlookup_mergeDict_isSome p g true k hk))

/-- C10: the sweep loop threads one global scope through all iterations —
    within an iteration the scope only gains keys during resolution, and
    every key present after iteration `i` (merged parameters and `_var`
    declarations alike) is present in the scope handed to every later
    iteration. -/
theorem C10_sweep_scope_shared (strict : Bool) (reg : String → Bool) (env : Dict)
    (config : Node) (ps : List Dict) (g : Dict) :
    (∀ x ∈ sweepScopes strict reg env config ps g,
        ∀ k, (dlookup x.1 k).isSome = true → (dlookup x.2 k).isSome = true) ∧
    (sweepScopes strict reg env config ps g).Pairwise
      (fun x y => ∀ k, (dlookup x.2 k).isSome = true → (dlookup y.1 k).isSome = true) := by
  induction ps generalizing g with
  | nil => simp [sweepScopes]
  | cons p rest ih =>
      rw [sweepScopes]
      cases hp : parseConfig strict reg env config (mergeDict g p true) with
      | error e =>
          refine ⟨?_, by simp⟩
          intro x hx k hk
          simp only [List.mem_singleton] at hx
          subst hx
          exact hk
      | ok r =>
          have hkeys := parseConfig_keys strict reg env config (mergeDict g p true)
          rw [hp] at hkeys
          simp only [] at hkeys
          constructor
          · intro x hx k hk
            simp only [List.mem_cons] at hx
            cases hx with
            | inl hx => subst hx; exact hkeys k hk
            | inr hx => exact (ih r.2).1 x hx k hk
          · rw [List.pairwise_cons]
            refine ⟨?_, (ih r.2).2⟩
            intro y hy k hk
            exact sweepScopes_start_mono strict reg env config rest r.2 y hy k hk

/-- C10 witness: in a concrete two-iteration sweep the global `a` merged in
    iteration one is present in the scope handed to iteration two. -/
theorem C10_sweep_scope_shared_witness :
    (dlookup ([("a", Node.int 1), ("b", Node.int 2)] : Dict) "a").isSome = true := by
  have h := (C10_sweep_scope_shared false (fun _ => false) [] Node.null
      [[("a", Node.int 1)], [("b", Node.int 2)]] []).2
  have hs : sweepScopes false (fun _ => false) [] Node.null
      [[("a", Node.int 1)], [("b", Node.int 2)]] [] =
      [([("a", Node.int 1)], [("a", Node.int 1)]),
       ([("a", Node.int 1), ("b", Node.int 2)], [("a", Node.int 1), ("b", Node.int 2)])] := by
    simp [sweepScopes, parseConfig, mergeDict, mergeStep, dlookup, dinsert]
  rw [hs] at h
  have h2 := (List.pairwise_cons.mp h).1
    ([("a", Node.int 1), ("b", Node.int 2)], [("a", Node.int 1), ("b", Node.int 2)])
    (by simp)
  exact h2 "a" (by simp [dlookup])

end Nest